import Mathlib

/-!
Verification development for the words-in-context repository.

The Python sources are shallowly embedded: Python `dict`s become association
lists in insertion order, Python `float` arithmetic becomes exact rational
arithmetic over `ℚ`, and the transcendental `math.log` is abstracted as an
explicit function parameter `log : ℚ → ℚ` (its numerical value never matters
for the properties proved here).  Python's `sorted` (a stable sort) is
modelled by `List.insertionSort`, which is stable for the same relation.
-/

/-! ## TF-IDF ranking: `get_doc_word_stats` (src/extract_words.py, lines 367-420) -/

/-- The per-word statistics dictionary built by `get_doc_word_stats`. -/
structure WordStats where
  count : ℕ
  words_in_doc : ℕ
  frequency : ℚ
  word_occs_in_docs : ℕ
  word_occ_ids : List ℕ
  tfidf : ℚ
  deriving Repr, DecidableEq

/-- One entry of the cached corpus: `wsid` (word → subtitle ids), the
likely-name set (keys of the `likely_names` dict) and `total_words`. -/
structure DocStats where
  wsid : List (String × List ℕ)
  likely_names : List String
  total_words : ℕ
  deriving Repr, DecidableEq

/-- The corpus handed to `get_doc_word_stats`: file name → document stats. -/
abbrev Corpus := List (String × DocStats)

/-- The `word_occs_in_docs` loop of `get_doc_word_stats`: the number of corpus
documents whose `wsid` contains `word`. -/
def doc_freq (corpus : Corpus) (word : String) : ℕ :=
  List.countP (fun p => (List.lookup word p.2.wsid).isSome) corpus

/-- The body of the `for word in word_collection` loop of `get_doc_word_stats`:
count, frequency, document frequency, TF-IDF, and the name-filtering override. -/
def mk_word_stats (log : ℚ → ℚ) (corpus : Corpus) (name_filtering : Bool)
    (likely_names : List String) (words_in_doc : ℕ)
    (word : String) (occs : List ℕ) : WordStats :=
  let count := occs.length
  let frequency : ℚ := (count : ℚ) / (words_in_doc : ℚ)
  let word_occs_in_docs := doc_freq corpus word
  let tfidf : ℚ := frequency * log ((corpus.length : ℚ) / (word_occs_in_docs : ℚ))
  { count := count
    words_in_doc := words_in_doc
    frequency := frequency
    word_occs_in_docs := word_occs_in_docs
    word_occ_ids := occs
    tfidf := if name_filtering ∧ word ∈ likely_names then 0 else tfidf }

/-- Descending order on TF-IDF, the sort key of
`sorted( doc_word_stats, key=lambda tup: tup[ 1 ][ 'tf-idf' ], reverse=True )`. -/
def tfidf_desc (a b : String × WordStats) : Prop :=
  b.2.tfidf ≤ a.2.tfidf

instance : DecidableRel tfidf_desc := fun a b =>
  inferInstanceAs (Decidable (b.2.tfidf ≤ a.2.tfidf))

instance : IsTotal (String × WordStats) tfidf_desc :=
  ⟨fun a b => (le_total b.2.tfidf a.2.tfidf).imp id id⟩

instance : IsTrans (String × WordStats) tfidf_desc :=
  ⟨fun _ _ _ hab hbc => le_trans hbc hab⟩

/-- `get_doc_word_stats`: skip the legacy `"__total__"` key, build the stats
for every other word, sort by TF-IDF descending, prepend the `None`
placeholder.  A missing `file` key raises `KeyError` in Python, modelled by
`none`. -/
def get_doc_word_stats (log : ℚ → ℚ) (corpus : Corpus) (file : String)
    (name_filtering : Bool) : Option (List (Option (String × WordStats))) :=
  match List.lookup file corpus with
  | none => none
  | some doc =>
    let entries := (doc.wsid.filter (fun p => p.1 ≠ "__total__")).map
      (fun p => (p.1, mk_word_stats log corpus name_filtering doc.likely_names
                        doc.total_words p.1 p.2))
    some (none :: (List.insertionSort tfidf_desc entries).map some)

/-! ## Spec-modelled variant with `deprioritize_sound_desc` -/

/-- Modelled from the spec: the final analysis pipeline (`analyze_file` with
its `in_sound_desc` occurrence flags) is not among the sources here — only its
tests and GUI callers are — so the corpus entry it produces is modelled from
the spec's data model: `wsid`, a parallel `in_sound_desc` boolean list per
word, the likely-name set and the total word count. -/
structure DocStatsS where
  wsid : List (String × List ℕ)
  in_sound_desc : List (String × List Bool)
  likely_names : List String
  total_words : ℕ
  deriving Repr, DecidableEq

/-- Modelled from the spec: corpus for the final pipeline. -/
abbrev CorpusS := List (String × DocStatsS)

/-- Modelled from the spec: document frequency over the final pipeline's corpus. -/
def doc_freq_s (corpus : CorpusS) (word : String) : ℕ :=
  List.countP (fun p => (List.lookup word p.2.wsid).isSome) corpus

/-- Modelled from the spec: per-word statistics of the final
`get_doc_word_stats`, whose `deprioritize_sound_desc` option multiplies the
score by 10,000 when at least one recorded occurrence of the word has
`in_sound_desc = false`, after the name-filtering override. -/
def mk_word_stats_s (log : ℚ → ℚ) (corpus : CorpusS)
    (name_filtering deprioritize_sound_desc : Bool)
    (likely_names : List String) (in_sound_desc : List (String × List Bool))
    (words_in_doc : ℕ) (word : String) (occs : List ℕ) : WordStats :=
  let count := occs.length
  let frequency : ℚ := (count : ℚ) / (words_in_doc : ℚ)
  let word_occs_in_docs := doc_freq_s corpus word
  let tfidf0 : ℚ := frequency * log ((corpus.length : ℚ) / (word_occs_in_docs : ℚ))
  let tfidf1 : ℚ := if name_filtering ∧ word ∈ likely_names then 0 else tfidf0
  let flags := (List.lookup word in_sound_desc).getD []
  let tfidf2 : ℚ :=
    if deprioritize_sound_desc ∧ flags.any (fun b => !b) then 10000 * tfidf1 else tfidf1
  { count := count
    words_in_doc := words_in_doc
    frequency := frequency
    word_occs_in_docs := word_occs_in_docs
    word_occ_ids := occs
    tfidf := tfidf2 }

/-- Modelled from the spec: the final `get_doc_word_stats`, with both the
`name_filtering` and the `deprioritize_sound_desc` options. -/
def get_doc_word_stats_s (log : ℚ → ℚ) (corpus : CorpusS) (file : String)
    (name_filtering deprioritize_sound_desc : Bool) :
    Option (List (Option (String × WordStats))) :=
  match List.lookup file corpus with
  | none => none
  | some doc =>
    let entries := doc.wsid.map
      (fun p => (p.1, mk_word_stats_s log corpus name_filtering
                        deprioritize_sound_desc doc.likely_names doc.in_sound_desc
                        doc.total_words p.1 p.2))
    some (none :: (List.insertionSort tfidf_desc entries).map some)

/-! ## Concrete corpora used by witnesses and counterexamples -/

/-- A document whose word index contains only the legacy `"__total__"` key. -/
def c2_doc : DocStats :=
  { wsid := [("__total__", [0])], likely_names := [], total_words := 1 }

/-- One-document corpus around `c2_doc`. -/
def c2_corpus : Corpus := [("f", c2_doc)]

/-- A one-word document used to instantiate the ranking theorems. -/
def cw_doc : DocStats :=
  { wsid := [("alpha", [1])], likely_names := [], total_words := 1 }

/-- One-document corpus around `cw_doc`. -/
def cw_corpus : Corpus := [("f", cw_doc)]

/-- C2 counterexample: `"__total__"` is a lemma of the document's word index,
yet `get_doc_word_stats` skips it (`if word == "__total__": continue`), so no
score at all is assigned to it: the returned list is just the placeholder. -/
theorem c2_total_skipped :
    List.lookup "f" c2_corpus = some c2_doc ∧
    ("__total__", ([0] : List ℕ)) ∈ c2_doc.wsid ∧
    get_doc_word_stats (fun _ => 1) c2_corpus "f" false = some [none] ∧
    ([none] : List (Option (String × WordStats))).all
      (fun o => o.map Prod.fst ≠ some "__total__") = true :=
  ⟨rfl, by decide, rfl, by decide⟩

/-- C2 (amended): for every lemma of the word index other than the legacy
`"__total__"` key, `get_doc_word_stats` emits an entry whose score is
`(count / total_words) * log(total_docs / doc_frequency)`, overridden to `0`
when name filtering is on and the lemma is a likely name. -/
theorem c2_tfidf_formula (log : ℚ → ℚ) (corpus : Corpus) (file : String)
    (nf : Bool) (doc : DocStats) (w : String) (occs : List ℕ)
    (hdoc : List.lookup file corpus = some doc)
    (hw : (w, occs) ∈ doc.wsid) (hne : w ≠ "__total__")
    (_htw : doc.total_words ≠ 0) :
    ∃ res stats, get_doc_word_stats log corpus file nf = some res ∧
      some (w, stats) ∈ res ∧
      stats.count = occs.length ∧
      stats.tfidf = (if nf ∧ w ∈ doc.likely_names then 0
        else ((occs.length : ℚ) / (doc.total_words : ℚ)) *
          log ((corpus.length : ℚ) / (doc_freq corpus w : ℚ))) := by
  refine ⟨none :: (List.insertionSort tfidf_desc
      ((doc.wsid.filter (fun p => p.1 ≠ "__total__")).map
        (fun p => (p.1, mk_word_stats log corpus nf doc.likely_names
                          doc.total_words p.1 p.2)))).map some,
    mk_word_stats log corpus nf doc.likely_names doc.total_words w occs,
    ?_, ?_, rfl, rfl⟩
  · simp only [get_doc_word_stats, hdoc]
  · apply List.mem_cons_of_mem
    refine List.mem_map.mpr ⟨_, ?_, rfl⟩
    refine ((List.perm_insertionSort tfidf_desc _).mem_iff).mpr ?_
    refine List.mem_map.mpr ⟨(w, occs), ?_, rfl⟩
    exact List.mem_filter.mpr ⟨hw, by simp [hne]⟩

/-- Witness for `c2_tfidf_formula` at a concrete one-word corpus. -/
theorem c2_tfidf_formula_witness :
    (List.lookup "f" cw_corpus = some cw_doc ∧
      ("alpha", ([1] : List ℕ)) ∈ cw_doc.wsid ∧
      "alpha" ≠ "__total__" ∧ cw_doc.total_words ≠ 0) ∧
    (∃ res stats,
      get_doc_word_stats (fun _ => 1) cw_corpus "f" false = some res ∧
      some ("alpha", stats) ∈ res ∧
      stats.count = ([1] : List ℕ).length ∧
      stats.tfidf = (if (false : Bool) ∧ "alpha" ∈ cw_doc.likely_names then 0
        else ((([1] : List ℕ).length : ℚ) / (cw_doc.total_words : ℚ)) *
          (fun _ : ℚ => (1 : ℚ)) ((cw_corpus.length : ℚ) /
            (doc_freq cw_corpus "alpha" : ℚ)))) :=
  ⟨⟨rfl, by decide, by decide, by decide⟩,
    c2_tfidf_formula (fun _ => 1) cw_corpus "f" false cw_doc "alpha" [1]
      rfl (by decide) (by decide) (by decide)⟩

/-- C8: the result of `get_doc_word_stats` is the `None` placeholder followed
by the entries sorted by TF-IDF in descending order. -/
theorem c8_sorted_placeholder (log : ℚ → ℚ) (corpus : Corpus) (file : String)
    (nf : Bool) (res : List (Option (String × WordStats)))
    (h : get_doc_word_stats log corpus file nf = some res) :
    ∃ entries, res = none :: entries.map some ∧
      List.Sorted tfidf_desc entries := by
  cases hc : List.lookup file corpus with
  | none => simp [get_doc_word_stats, hc] at h
  | some doc =>
    simp only [get_doc_word_stats, hc, Option.some.injEq] at h
    exact ⟨List.insertionSort tfidf_desc _, h.symm,
      List.sorted_insertionSort tfidf_desc _⟩

/-- Witness for `c8_sorted_placeholder` at a concrete one-word corpus. -/
theorem c8_sorted_placeholder_witness :
    (get_doc_word_stats (fun _ => 0) cw_corpus "f" false =
      some ((get_doc_word_stats (fun _ => 0) cw_corpus "f" false).getD [])) ∧
    ∃ entries,
      (get_doc_word_stats (fun _ => 0) cw_corpus "f" false).getD [] =
        none :: entries.map some ∧
      List.Sorted tfidf_desc entries :=
  ⟨rfl, c8_sorted_placeholder (fun _ => 0) cw_corpus "f" false _ rfl⟩

/-- C1 (spec-modelled): enabling `deprioritize_sound_desc` multiplies a word's
score by exactly 10,000 when at least one recorded occurrence lies outside a
sound description, and leaves it exactly unchanged when every recorded
occurrence lies inside one. -/
theorem c1_deprioritize_scale (log : ℚ → ℚ) (corpus : CorpusS) (file : String)
    (nf : Bool) (doc : DocStatsS) (w : String) (occs : List ℕ)
    (hdoc : List.lookup file corpus = some doc)
    (hw : (w, occs) ∈ doc.wsid) :
    ∃ res_d res_n s_d s_n,
      get_doc_word_stats_s log corpus file nf true = some res_d ∧
      get_doc_word_stats_s log corpus file nf false = some res_n ∧
      some (w, s_d) ∈ res_d ∧ some (w, s_n) ∈ res_n ∧
      (((List.lookup w doc.in_sound_desc).getD []).any (fun b => !b) = true →
        s_d.tfidf = 10000 * s_n.tfidf) ∧
      (((List.lookup w doc.in_sound_desc).getD []).any (fun b => !b) = false →
        s_d.tfidf = s_n.tfidf) := by
  have hment : ∀ dsd : Bool,
      (w, mk_word_stats_s log corpus nf dsd doc.likely_names doc.in_sound_desc
            doc.total_words w occs) ∈
        doc.wsid.map (fun p => (p.1, mk_word_stats_s log corpus nf dsd
          doc.likely_names doc.in_sound_desc doc.total_words p.1 p.2)) :=
    fun dsd => List.mem_map.mpr ⟨(w, occs), hw, rfl⟩
  refine ⟨none :: (List.insertionSort tfidf_desc
      (doc.wsid.map (fun p => (p.1, mk_word_stats_s log corpus nf true
        doc.likely_names doc.in_sound_desc doc.total_words p.1 p.2)))).map some,
    none :: (List.insertionSort tfidf_desc
      (doc.wsid.map (fun p => (p.1, mk_word_stats_s log corpus nf false
        doc.likely_names doc.in_sound_desc doc.total_words p.1 p.2)))).map some,
    mk_word_stats_s log corpus nf true doc.likely_names doc.in_sound_desc
      doc.total_words w occs,
    mk_word_stats_s log corpus nf false doc.likely_names doc.in_sound_desc
      doc.total_words w occs, ?_, ?_, ?_, ?_, ?_, ?_⟩
  · simp only [get_doc_word_stats_s, hdoc]
  · simp only [get_doc_word_stats_s, hdoc]
  · exact List.mem_cons_of_mem _ (List.mem_map.mpr
      ⟨_, ((List.perm_insertionSort tfidf_desc _).mem_iff).mpr (hment true), rfl⟩)
  · exact List.mem_cons_of_mem _ (List.mem_map.mpr
      ⟨_, ((List.perm_insertionSort tfidf_desc _).mem_iff).mpr (hment false), rfl⟩)
  · intro hany
    simp [mk_word_stats_s, hany]
  · intro hany
    simp [mk_word_stats_s, hany]

/-- A document of the spec-modelled pipeline whose word has one occurrence
outside any sound description. -/
def c1_doc : DocStatsS :=
  { wsid := [("gun", [2])], in_sound_desc := [("gun", [false])],
    likely_names := [], total_words := 1 }

/-- One-document corpus around `c1_doc`. -/
def c1_corpus : CorpusS := [("r", c1_doc)]

/-- Witness for `c1_deprioritize_scale` at a concrete corpus. -/
theorem c1_deprioritize_scale_witness :
    (List.lookup "r" c1_corpus = some c1_doc ∧
      ("gun", ([2] : List ℕ)) ∈ c1_doc.wsid) ∧
    (∃ res_d res_n s_d s_n,
      get_doc_word_stats_s (fun _ => 1) c1_corpus "r" false true = some res_d ∧
      get_doc_word_stats_s (fun _ => 1) c1_corpus "r" false false = some res_n ∧
      some ("gun", s_d) ∈ res_d ∧ some ("gun", s_n) ∈ res_n ∧
      (((List.lookup "gun" c1_doc.in_sound_desc).getD []).any (fun b => !b) = true →
        s_d.tfidf = 10000 * s_n.tfidf) ∧
      (((List.lookup "gun" c1_doc.in_sound_desc).getD []).any (fun b => !b) = false →
        s_d.tfidf = s_n.tfidf)) :=
  ⟨⟨rfl, by decide⟩,
    c1_deprioritize_scale (fun _ => 1) c1_corpus "r" false c1_doc "gun" [2]
      rfl (by decide)⟩

/-! ## Flashcards and Anki export (src/export.py) -/

/-- `Flashcard`: the front and back text of one card. -/
structure Flashcard where
  front : String
  back : String
  deriving Repr, DecidableEq

/-- A note added to a deck by `export_to_anki`: its two fields and the list of
strings fed to `guid_for` (the note's fields plus `i` empty padding strings
for deck index `i`). -/
structure AnkiNote where
  fields : List String
  guid_key : List String
  deriving Repr, DecidableEq

/-- A `genanki.Deck` as built by `export_to_anki`. -/
structure AnkiDeck where
  deck_id : ℕ
  name : String
  notes : List AnkiNote
  deriving Repr, DecidableEq

/-- The f-string template of `export_to_anki` that wraps the card text in an
HTML page (centered body, 16px font), reproduced character for character. -/
def styled_text (content : String) : String :=
  "\n            <html>\n            <head>\n            <style>\n            body \x7b text-align: center; font-size: 16px; \x7d\n            </style>\n            </head>\n            <body>\n            " ++
    content ++
    "\n            </body>\n            </html>\n            "

/-- `export_to_anki`: build one deck per `deck_name_to_id` entry and add one
note per (flashcard, deck) pair.  The source iterates cards in the outer loop
and decks in the inner one; the notes each deck ends up holding are all the
cards in list order.  Returns the decks and the output `.apkg` file names. -/
def export_to_anki (card_list : List Flashcard)
    (deck_name_to_id : List (String × ℕ)) (fname : String) :
    List AnkiDeck × List String :=
  let decks0 := deck_name_to_id.map (fun p => AnkiDeck.mk p.2 p.1 [])
  let decks := decks0.enum.map (fun q =>
    { q.2 with notes := card_list.map (fun card =>
        let fields := [styled_text card.front, styled_text card.back]
        { fields := fields, guid_key := fields ++ List.replicate q.1 "" }) })
  let outs := if decks.length = 1 then [fname ++ ".apkg"]
    else decks.map (fun d => fname ++ " (" ++ d.name ++ ").apkg")
  (decks, outs)

/-- Mapping a constant function over `l.enum` is the same as mapping it over
`l`. -/
theorem map_enum_const {α β : Type _} (l : List α) (v : β) :
    l.enum.map (fun _ => v) = l.map (fun _ => v) := by
  rw [List.map_const', List.map_const', List.enum_length]

/-- C3 counterexample: the exporter does not store the authored text verbatim;
every note field is the authored text wrapped in the styled HTML template. -/
theorem c3_fields_are_wrapped :
    (export_to_anki [⟨"x", "y"⟩] [("d", 1)] "out").1.map
        (fun d => d.notes.map (fun n => n.fields)) =
      [[[styled_text "x", styled_text "y"]]] ∧
    styled_text "x" ≠ "x" ∧ styled_text "y" ≠ "y" :=
  ⟨rfl, by decide, by decide⟩

/-- C3 (amended): every note written by `export_to_anki` has exactly two
fields, the card's front and back text each wrapped in the fixed HTML template
(centered body, 16px font) — in every target deck, one note per card, in card
order. -/
theorem c3_note_fields (card_list : List Flashcard)
    (deck_name_to_id : List (String × ℕ)) (fname : String) :
    (export_to_anki card_list deck_name_to_id fname).1.map
        (fun d => d.notes.map (fun n => n.fields)) =
      deck_name_to_id.map (fun _ => card_list.map
        (fun c => [styled_text c.front, styled_text c.back])) := by
  simp only [export_to_anki, List.map_map, Function.comp_def]
  rw [map_enum_const, List.map_map]
  simp only [Function.comp_def]

/-! ## Crash-recovery backup (src/export.py, `write_flashcard_to_backup` /
`read_flashcard_backup`) -/

/-- A value pickled as the second component of a tagged metadata tuple:
either a string (filename or language code) or the deck-name→id dict. -/
inductive BackupPayload where
  | str (s : String)
  | dict (d : List (String × ℕ))
  deriving Repr, DecidableEq

/-- One pickled record of the backup stream: a tagged 2-tuple or a bare
`Flashcard`. -/
inductive BackupEntry where
  | tup (tag : String) (payload : BackupPayload)
  | card (c : Flashcard)
  deriving Repr, DecidableEq

/-- `write_flashcard_to_backup`: the backup file is `none` when it does not
exist yet; creating it first appends the four tagged metadata records, and
every call appends the flashcard. -/
def write_flashcard_to_backup (backup : Option (List BackupEntry))
    (flashcard : Flashcard) (target_subtitle_fname target_lang native_lang : String)
    (deck_name_to_id : List (String × ℕ)) : List BackupEntry :=
  match backup with
  | none =>
    [.tup "target_subtitle_fname" (.str target_subtitle_fname),
     .tup "target_lang" (.str target_lang),
     .tup "native_lang" (.str native_lang),
     .tup "deck_name_to_id" (.dict deck_name_to_id),
     .card flashcard]
  | some entries => entries ++ [.card flashcard]

/-- Saving a whole session: one `write_flashcard_to_backup` call per card
against an initially missing backup file. -/
def write_backup_sequence (fcs : List Flashcard)
    (target_subtitle_fname target_lang native_lang : String)
    (deck_name_to_id : List (String × ℕ)) : Option (List BackupEntry) :=
  fcs.foldl (fun acc fc => some (write_flashcard_to_backup acc fc
    target_subtitle_fname target_lang native_lang deck_name_to_id)) none

/-- The mutable locals of `read_flashcard_backup` while scanning the stream. -/
structure ReadState where
  target_subtitle_fname : Option BackupPayload
  target_lang : Option BackupPayload
  native_lang : Option BackupPayload
  deck_name_to_id : Option BackupPayload
  flashcards : List Flashcard
  deriving Repr, DecidableEq

/-- The `while True: pickle.load` loop of `read_flashcard_backup`: tagged
tuples are routed to their metadata slot (`assert False` — modelled as
`Except.error` — on an unrecognized tag); every other record is a flashcard. -/
def read_backup_loop : List BackupEntry → ReadState → Except String ReadState
  | [], st => .ok st
  | .tup tag p :: rest, st =>
    if tag = "target_subtitle_fname" then
      read_backup_loop rest { st with target_subtitle_fname := some p }
    else if tag = "target_lang" then
      read_backup_loop rest { st with target_lang := some p }
    else if tag = "native_lang" then
      read_backup_loop rest { st with native_lang := some p }
    else if tag = "deck_name_to_id" then
      read_backup_loop rest { st with deck_name_to_id := some p }
    else .error "Backup file format does not match expected."
  | .card c :: rest, st =>
    read_backup_loop rest { st with flashcards := st.flashcards ++ [c] }

/-- Python truthiness of a metadata slot, as used by the trailing `assert`
statements: an unset slot, an empty string and an empty dict are all falsy. -/
def truthy : Option BackupPayload → Bool
  | none => false
  | some (.str s) => s ≠ ""
  | some (.dict d) => d ≠ []

/-- `read_flashcard_backup`: scan the stream, then `assert` each metadata
slot and the flashcard list (Python truthiness), then return everything. -/
def read_flashcard_backup (entries : List BackupEntry) :
    Except String (BackupPayload × BackupPayload × BackupPayload ×
      BackupPayload × List Flashcard) :=
  match read_backup_loop entries ⟨none, none, none, none, []⟩ with
  | .error e => .error e
  | .ok st =>
    if truthy st.target_subtitle_fname = false then .error "assert target_subtitle_fname"
    else if truthy st.target_lang = false then .error "assert target_lang"
    else if truthy st.native_lang = false then .error "assert native_lang"
    else if truthy st.deck_name_to_id = false then .error "assert deck_name_to_id"
    else if st.flashcards = [] then .error "assert flashcards"
    else .ok (st.target_subtitle_fname.getD (.str ""), st.target_lang.getD (.str ""),
      st.native_lang.getD (.str ""), st.deck_name_to_id.getD (.dict []),
      st.flashcards)

/-- The four metadata tags recognized by `read_flashcard_backup`. -/
def backup_tags : List String :=
  ["target_subtitle_fname", "target_lang", "native_lang", "deck_name_to_id"]

/-- The final value of one metadata slot after scanning a stream: the payload
of the last tuple bearing `tag`, if any. -/
def final_slot (tag : String) : List BackupEntry → Option BackupPayload →
    Option BackupPayload
  | [], init => init
  | .tup t p :: rest, init => final_slot tag rest (if t = tag then some p else init)
  | .card _ :: rest, init => final_slot tag rest init

/-- The flashcards of a stream, in order. -/
def cards_of (es : List BackupEntry) : List Flashcard :=
  es.filterMap (fun e => match e with | .card c => some c | _ => none)

/-- When every tagged record bears a recognized tag, the scan loop succeeds
and its final state is described by `final_slot` and `cards_of`. -/
theorem read_backup_loop_ok (es : List BackupEntry) (st : ReadState)
    (hrec : ∀ t p, BackupEntry.tup t p ∈ es → t ∈ backup_tags) :
    read_backup_loop es st = .ok
      { target_subtitle_fname := final_slot "target_subtitle_fname" es st.target_subtitle_fname
        target_lang := final_slot "target_lang" es st.target_lang
        native_lang := final_slot "native_lang" es st.native_lang
        deck_name_to_id := final_slot "deck_name_to_id" es st.deck_name_to_id
        flashcards := st.flashcards ++ cards_of es } := by
  induction es generalizing st with
  | nil => simp [read_backup_loop, final_slot, cards_of]
  | cons e rest ih =>
    have hrest : ∀ t p, BackupEntry.tup t p ∈ rest → t ∈ backup_tags :=
      fun t p hm => hrec t p (List.mem_cons_of_mem _ hm)
    cases e with
    | tup t p =>
      have ht : t ∈ backup_tags := hrec t p (List.mem_cons_self _ _)
      simp only [backup_tags, List.mem_cons, List.not_mem_nil, or_false] at ht
      rcases ht with rfl | rfl | rfl | rfl <;>
        simp [read_backup_loop, final_slot, cards_of, ih _ hrest]
    | card c =>
      simp [read_backup_loop, final_slot, cards_of, ih _ hrest, List.append_assoc]

/-- The scan loop aborts with the `assert False` error as soon as the stream
holds a tagged record with an unrecognized tag. -/
theorem read_backup_loop_err (es : List BackupEntry) (st : ReadState)
    (t : String) (p : BackupPayload) (hm : BackupEntry.tup t p ∈ es)
    (ht : t ∉ backup_tags) :
    ∃ msg, read_backup_loop es st = .error msg := by
  induction es generalizing st with
  | nil => cases hm
  | cons e rest ih =>
    cases e with
    | tup t' p' =>
      by_cases h1 : t' = "target_subtitle_fname"
      · subst h1
        have hm' : BackupEntry.tup t p ∈ rest := by
          rcases List.mem_cons.mp hm with heq | hm'
          · cases heq; simp [backup_tags] at ht
          · exact hm'
        simpa [read_backup_loop] using ih _ hm'
      · by_cases h2 : t' = "target_lang"
        · subst h2
          have hm' : BackupEntry.tup t p ∈ rest := by
            rcases List.mem_cons.mp hm with heq | hm'
            · cases heq; simp [backup_tags] at ht
            · exact hm'
          simpa [read_backup_loop, h1] using ih _ hm'
        · by_cases h3 : t' = "native_lang"
          · subst h3
            have hm' : BackupEntry.tup t p ∈ rest := by
              rcases List.mem_cons.mp hm with heq | hm'
              · cases heq; simp [backup_tags] at ht
              · exact hm'
            simpa [read_backup_loop, h1, h2] using ih _ hm'
          · by_cases h4 : t' = "deck_name_to_id"
            · subst h4
              have hm' : BackupEntry.tup t p ∈ rest := by
                rcases List.mem_cons.mp hm with heq | hm'
                · cases heq; simp [backup_tags] at ht
                · exact hm'
              simpa [read_backup_loop, h1, h2, h3] using ih _ hm'
            · exact ⟨"Backup file format does not match expected.", by simp [read_backup_loop, h1, h2, h3, h4]⟩
    | card c =>
      have hm' : BackupEntry.tup t p ∈ rest := by
        rcases List.mem_cons.mp hm with heq | hm'
        · cases heq
        · exact hm'
      simpa [read_backup_loop] using ih _ hm'

/-- If no tuple tagged `t` occurs in the stream, the corresponding slot keeps
its initial value. -/
theorem final_slot_of_not_mem (t : String) (es : List BackupEntry)
    (init : Option BackupPayload) (h : ∀ p, BackupEntry.tup t p ∉ es) :
    final_slot t es init = init := by
  induction es generalizing init with
  | nil => rfl
  | cons e rest ih =>
    cases e with
    | tup t' p' =>
      have ht' : ¬t' = t := fun heq => h p' (by rw [heq]; exact List.mem_cons_self _ _)
      simp only [final_slot, ht', if_false]
      exact ih _ (fun p hp => h p (List.mem_cons_of_mem _ hp))
    | card c =>
      exact ih _ (fun p hp => h p (List.mem_cons_of_mem _ hp))

/-- Scanning a run of bare flashcards never touches a metadata slot. -/
theorem final_slot_cards (t : String) (l : List Flashcard)
    (init : Option BackupPayload) :
    final_slot t (l.map BackupEntry.card) init = init := by
  induction l generalizing init with
  | nil => rfl
  | cons c rest ih => simpa [final_slot] using ih init

/-- `cards_of` of a run of bare flashcards is that run. -/
theorem cards_of_cards (l : List Flashcard) :
    cards_of (l.map BackupEntry.card) = l := by
  induction l with
  | nil => rfl
  | cons c rest ih =>
    rw [List.map_cons,
      show cards_of (BackupEntry.card c :: rest.map BackupEntry.card) =
        c :: cards_of (rest.map BackupEntry.card) from rfl, ih]

/-- `cards_of` distributes over stream concatenation. -/
theorem cards_of_append (a b : List BackupEntry) :
    cards_of (a ++ b) = cards_of a ++ cards_of b :=
  List.filterMap_append a b _

/-- If the scan loop succeeds but some trailing `assert` condition is falsy,
`read_flashcard_backup` aborts with an assertion error. -/
theorem read_err_of_state (es : List BackupEntry) (st : ReadState)
    (hloop : read_backup_loop es ⟨none, none, none, none, []⟩ = .ok st)
    (hbad : truthy st.target_subtitle_fname = false ∨ truthy st.target_lang = false ∨
      truthy st.native_lang = false ∨ truthy st.deck_name_to_id = false ∨
      st.flashcards = []) :
    ∃ msg, read_flashcard_backup es = .error msg := by
  simp only [read_flashcard_backup, hloop]
  by_cases h1 : truthy st.target_subtitle_fname = false
  · exact ⟨"assert target_subtitle_fname", by simp [h1]⟩
  · by_cases h2 : truthy st.target_lang = false
    · exact ⟨"assert target_lang", by simp [h1, h2]⟩
    · by_cases h3 : truthy st.native_lang = false
      · exact ⟨"assert native_lang", by simp [h1, h2, h3]⟩
      · by_cases h4 : truthy st.deck_name_to_id = false
        · exact ⟨"assert deck_name_to_id", by simp [h1, h2, h3, h4]⟩
        · have h5 : st.flashcards = [] := by
            rcases hbad with h | h | h | h | h
            · exact absurd h h1
            · exact absurd h h2
            · exact absurd h h3
            · exact absurd h h4
            · exact h
          exact ⟨"assert flashcards", by simp [h1, h2, h3, h4, h5]⟩

/-- C7 (amended): `read_flashcard_backup` fails with an assertion whenever the
stream holds an unrecognized tagged record, or is missing one of the four
metadata records, or holds no flashcard; it returns normally on every stream
whose tagged records all bear recognized tags, whose four metadata slots end
up holding truthy (non-empty) payloads, and which holds at least one
flashcard. -/
theorem c7_read_validation :
    (∀ es t p, BackupEntry.tup t p ∈ es → t ∉ backup_tags →
      ∃ msg, read_flashcard_backup es = .error msg) ∧
    (∀ es t, t ∈ backup_tags → (∀ p, BackupEntry.tup t p ∉ es) →
      ∃ msg, read_flashcard_backup es = .error msg) ∧
    (∀ es, cards_of es = [] → ∃ msg, read_flashcard_backup es = .error msg) ∧
    (∀ es, (∀ t p, BackupEntry.tup t p ∈ es → t ∈ backup_tags) →
      truthy (final_slot "target_subtitle_fname" es none) = true →
      truthy (final_slot "target_lang" es none) = true →
      truthy (final_slot "native_lang" es none) = true →
      truthy (final_slot "deck_name_to_id" es none) = true →
      cards_of es ≠ [] →
      ∃ v, read_flashcard_backup es = Except.ok v) := by
  refine ⟨?_, ?_, ?_, ?_⟩
  · intro es t p hm ht
    obtain ⟨msg, h⟩ := read_backup_loop_err es ⟨none, none, none, none, []⟩ t p hm ht
    exact ⟨msg, by simp [read_flashcard_backup, h]⟩
  · intro es t htag hnone
    by_cases hall : ∀ t' p', BackupEntry.tup t' p' ∈ es → t' ∈ backup_tags
    · have hloop := read_backup_loop_ok es ⟨none, none, none, none, []⟩ hall
      apply read_err_of_state es _ hloop
      have hslot := final_slot_of_not_mem t es none hnone
      simp only [backup_tags, List.mem_cons, List.not_mem_nil, or_false] at htag
      rcases htag with rfl | rfl | rfl | rfl
      · exact Or.inl (by simp [hslot, truthy])
      · exact Or.inr (Or.inl (by simp [hslot, truthy]))
      · exact Or.inr (Or.inr (Or.inl (by simp [hslot, truthy])))
      · exact Or.inr (Or.inr (Or.inr (Or.inl (by simp [hslot, truthy]))))
    · push_neg at hall
      obtain ⟨t', p', hm, ht'⟩ := hall
      obtain ⟨msg, h⟩ := read_backup_loop_err es ⟨none, none, none, none, []⟩ t' p' hm ht'
      exact ⟨msg, by simp [read_flashcard_backup, h]⟩
  · intro es hcards
    by_cases hall : ∀ t' p', BackupEntry.tup t' p' ∈ es → t' ∈ backup_tags
    · have hloop := read_backup_loop_ok es ⟨none, none, none, none, []⟩ hall
      exact read_err_of_state es _ hloop (Or.inr (Or.inr (Or.inr (Or.inr
        (by simp [hcards])))))
    · push_neg at hall
      obtain ⟨t', p', hm, ht'⟩ := hall
      obtain ⟨msg, h⟩ := read_backup_loop_err es ⟨none, none, none, none, []⟩ t' p' hm ht'
      exact ⟨msg, by simp [read_flashcard_backup, h]⟩
  · intro es hall h1 h2 h3 h4 hc
    have hloop := read_backup_loop_ok es ⟨none, none, none, none, []⟩ hall
    refine ⟨((final_slot "target_subtitle_fname" es none).getD (.str ""),
      (final_slot "target_lang" es none).getD (.str ""),
      (final_slot "native_lang" es none).getD (.str ""),
      (final_slot "deck_name_to_id" es none).getD (.dict []),
      cards_of es), ?_⟩
    simp [read_flashcard_backup, hloop, h1, h2, h3, h4, hc]

/-- A stream that does contain all four tagged metadata records and a
flashcard, but whose `target_lang` payload is the empty string. -/
def c7_bad_stream : List BackupEntry :=
  [.tup "target_subtitle_fname" (.str "movie.srt"),
   .tup "target_lang" (.str ""),
   .tup "native_lang" (.str "ro"),
   .tup "deck_name_to_id" (.dict [("deck", 1)]),
   .card ⟨"front", "back"⟩]

/-- C7 counterexample: this stream contains all four tagged metadata records
and one flashcard, yet `read_flashcard_backup` still fails — the trailing
`assert` uses Python truthiness, so an empty-string payload aborts the
restore.  The claim's positive half ("returns normally on every stream
containing all four metadata records and at least one flashcard") is false. -/
theorem c7_truthiness_counterexample :
    BackupEntry.tup "target_subtitle_fname" (.str "movie.srt") ∈ c7_bad_stream ∧
    BackupEntry.tup "target_lang" (.str "") ∈ c7_bad_stream ∧
    BackupEntry.tup "native_lang" (.str "ro") ∈ c7_bad_stream ∧
    BackupEntry.tup "deck_name_to_id" (.dict [("deck", 1)]) ∈ c7_bad_stream ∧
    BackupEntry.card ⟨"front", "back"⟩ ∈ c7_bad_stream ∧
    read_flashcard_backup c7_bad_stream = .error "assert target_lang" :=
  ⟨by decide, by decide, by decide, by decide, by decide, rfl⟩

/-- A well-formed stream used to instantiate `c7_read_validation`. -/
def c7_good_stream : List BackupEntry :=
  [.tup "target_subtitle_fname" (.str "movie.srt"),
   .tup "target_lang" (.str "en"),
   .tup "native_lang" (.str "ro"),
   .tup "deck_name_to_id" (.dict [("deck", 1)]),
   .card ⟨"front", "back"⟩]

/-- Witness for `c7_read_validation`: the unrecognized-tag branch on a
one-record stream and the success branch on a well-formed stream. -/
theorem c7_read_validation_witness :
    (∃ msg, read_flashcard_backup [.tup "bogus" (.str "x")] = .error msg) ∧
    (∃ v, read_flashcard_backup c7_good_stream = Except.ok v) :=
  ⟨c7_read_validation.1 [.tup "bogus" (.str "x")] "bogus" (.str "x")
      (by decide) (by decide),
    c7_read_validation.2.2.2 c7_good_stream
      (by
        intro t p hm
        simp only [c7_good_stream, List.mem_cons, List.not_mem_nil, or_false] at hm
        rcases hm with h | h | h | h | h <;> cases h <;> decide)
      (by decide) (by decide) (by decide) (by decide) (by decide)⟩

/-- Folding further writes onto an existing backup appends one flashcard
record per card. -/
theorem foldl_write_some (tsf tl nl : String) (dni : List (String × ℕ))
    (rest : List Flashcard) (es : List BackupEntry) :
    rest.foldl (fun acc fc => some (write_flashcard_to_backup acc fc
        tsf tl nl dni)) (some es) =
      some (es ++ rest.map BackupEntry.card) := by
  induction rest generalizing es with
  | nil => simp
  | cons f r ih =>
    rw [List.foldl_cons,
      show write_flashcard_to_backup (some es) f tsf tl nl dni =
        es ++ [BackupEntry.card f] from rfl,
      ih]
    simp [List.append_assoc]

/-- `read_flashcard_backup` succeeds, returning the last payload of each
metadata tag and the stream's flashcards, whenever every tag is recognized,
every metadata slot ends up truthy, and there is at least one flashcard. -/
theorem read_ok_of_slots (es : List BackupEntry)
    (hall : ∀ t p, BackupEntry.tup t p ∈ es → t ∈ backup_tags)
    (p1 p2 p3 p4 : BackupPayload) (fcs : List Flashcard)
    (h1 : final_slot "target_subtitle_fname" es none = some p1)
    (ht1 : truthy (some p1) = true)
    (h2 : final_slot "target_lang" es none = some p2)
    (ht2 : truthy (some p2) = true)
    (h3 : final_slot "native_lang" es none = some p3)
    (ht3 : truthy (some p3) = true)
    (h4 : final_slot "deck_name_to_id" es none = some p4)
    (ht4 : truthy (some p4) = true)
    (hc : cards_of es = fcs) (hfcs : fcs ≠ []) :
    read_flashcard_backup es = .ok (p1, p2, p3, p4, fcs) := by
  have hloop := read_backup_loop_ok es ⟨none, none, none, none, []⟩ hall
  simp only [read_flashcard_backup, hloop]
  simp [h1, h2, h3, h4, ht1, ht2, ht3, ht4, hc, hfcs]

/-- C6 (amended): writing `N ≥ 1` flashcards to a fresh backup path and
reading the file back recovers the same subtitle filename, language codes,
deck mapping and flashcards in order — provided the metadata strings are
non-empty and the deck mapping is non-empty (empty ones trip the truthiness
`assert` of the reader). -/
theorem c6_backup_roundtrip (fcs : List Flashcard)
    (tsf tl nl : String) (dni : List (String × ℕ))
    (hne : fcs ≠ []) (h1 : tsf ≠ "") (h2 : tl ≠ "") (h3 : nl ≠ "")
    (h4 : dni ≠ []) :
    ∃ es, write_backup_sequence fcs tsf tl nl dni = some es ∧
      read_flashcard_backup es =
        .ok (.str tsf, .str tl, .str nl, .dict dni, fcs) := by
  obtain ⟨f, rest, rfl⟩ := List.exists_cons_of_ne_nil hne
  refine ⟨[.tup "target_subtitle_fname" (.str tsf), .tup "target_lang" (.str tl),
    .tup "native_lang" (.str nl), .tup "deck_name_to_id" (.dict dni)] ++
      (f :: rest).map BackupEntry.card, ?_, ?_⟩
  · simp only [write_backup_sequence, List.foldl_cons]
    rw [show write_flashcard_to_backup none f tsf tl nl dni =
        [BackupEntry.tup "target_subtitle_fname" (.str tsf),
          .tup "target_lang" (.str tl), .tup "native_lang" (.str nl),
          .tup "deck_name_to_id" (.dict dni)] ++ [BackupEntry.card f] from rfl,
      foldl_write_some]
    simp
  · have hrec : ∀ t p, BackupEntry.tup t p ∈
        ([.tup "target_subtitle_fname" (.str tsf), .tup "target_lang" (.str tl),
          .tup "native_lang" (.str nl), .tup "deck_name_to_id" (.dict dni)] ++
          (f :: rest).map BackupEntry.card) → t ∈ backup_tags := by
      intro t p hm
      rcases List.mem_append.mp hm with hmeta | hcards
      · simp only [List.mem_cons, List.not_mem_nil, or_false] at hmeta
        rcases hmeta with h | h | h | h <;> cases h <;> decide
      · rcases List.mem_map.mp hcards with ⟨c, _, heq⟩
        cases heq
    have hloop := read_backup_loop_ok _ ⟨none, none, none, none, []⟩ hrec
    have hslots : ∀ tag : String, final_slot tag
        ([.tup "target_subtitle_fname" (.str tsf), .tup "target_lang" (.str tl),
          .tup "native_lang" (.str nl), .tup "deck_name_to_id" (.dict dni)] ++
          (f :: rest).map BackupEntry.card) none =
        final_slot tag [BackupEntry.tup "target_subtitle_fname" (.str tsf),
          .tup "target_lang" (.str tl), .tup "native_lang" (.str nl),
          .tup "deck_name_to_id" (.dict dni)] none := by
      intro tag
      simp only [List.cons_append, List.nil_append, final_slot]
      rw [final_slot_cards]
    have ht1 : truthy (some (BackupPayload.str tsf)) = true := by
      simp [truthy, h1]
    have ht2 : truthy (some (BackupPayload.str tl)) = true := by
      simp [truthy, h2]
    have ht3 : truthy (some (BackupPayload.str nl)) = true := by
      simp [truthy, h3]
    have ht4 : truthy (some (BackupPayload.dict dni)) = true := by
      simp [truthy, h4]
    have hfs1 : final_slot "target_subtitle_fname"
        ([BackupEntry.tup "target_subtitle_fname" (.str tsf),
          .tup "target_lang" (.str tl), .tup "native_lang" (.str nl),
          .tup "deck_name_to_id" (.dict dni)] ++
          (f :: rest).map BackupEntry.card) none = some (.str tsf) := by
      rw [hslots]; simp [final_slot]
    have hfs2 : final_slot "target_lang"
        ([BackupEntry.tup "target_subtitle_fname" (.str tsf),
          .tup "target_lang" (.str tl), .tup "native_lang" (.str nl),
          .tup "deck_name_to_id" (.dict dni)] ++
          (f :: rest).map BackupEntry.card) none = some (.str tl) := by
      rw [hslots]; simp [final_slot]
    have hfs3 : final_slot "native_lang"
        ([BackupEntry.tup "target_subtitle_fname" (.str tsf),
          .tup "target_lang" (.str tl), .tup "native_lang" (.str nl),
          .tup "deck_name_to_id" (.dict dni)] ++
          (f :: rest).map BackupEntry.card) none = some (.str nl) := by
      rw [hslots]; simp [final_slot]
    have hfs4 : final_slot "deck_name_to_id"
        ([BackupEntry.tup "target_subtitle_fname" (.str tsf),
          .tup "target_lang" (.str tl), .tup "native_lang" (.str nl),
          .tup "deck_name_to_id" (.dict dni)] ++
          (f :: rest).map BackupEntry.card) none = some (.dict dni) := by
      rw [hslots]; simp [final_slot]
    have hcs : cards_of
        ([BackupEntry.tup "target_subtitle_fname" (.str tsf),
          .tup "target_lang" (.str tl), .tup "native_lang" (.str nl),
          .tup "deck_name_to_id" (.dict dni)] ++
          (f :: rest).map BackupEntry.card) = f :: rest := by
      rw [cards_of_append, cards_of_cards]
      rfl
    exact read_ok_of_slots _ hrec _ _ _ _ _ hfs1 ht1 hfs2 ht2 hfs3 ht3
      hfs4 ht4 hcs (by simp)

/-- C6 counterexample: with an empty target-language code (a perfectly
representable metadata value), the freshly written backup cannot be read
back — the truthiness `assert` aborts — so the write/read round-trip fails
for this metadata. -/
theorem c6_empty_metadata_fails :
    write_backup_sequence [⟨"front", "back"⟩] "movie.srt" "" "ro" [("deck", 1)] =
      some (write_flashcard_to_backup none ⟨"front", "back"⟩ "movie.srt" ""
        "ro" [("deck", 1)]) ∧
    read_flashcard_backup (write_flashcard_to_backup none ⟨"front", "back"⟩
      "movie.srt" "" "ro" [("deck", 1)]) = .error "assert target_lang" :=
  ⟨rfl, rfl⟩

/-- Witness for `c6_backup_roundtrip` at two concrete flashcards. -/
theorem c6_backup_roundtrip_witness :
    (([⟨"f1", "b1"⟩, ⟨"f2", "b2"⟩] : List Flashcard) ≠ [] ∧
      "movie.srt" ≠ "" ∧ "en" ≠ "" ∧ "ro" ≠ "" ∧
      ([("deck", 1)] : List (String × ℕ)) ≠ []) ∧
    (∃ es, write_backup_sequence [⟨"f1", "b1"⟩, ⟨"f2", "b2"⟩] "movie.srt" "en"
        "ro" [("deck", 1)] = some es ∧
      read_flashcard_backup es = .ok (.str "movie.srt", .str "en", .str "ro",
        .dict [("deck", 1)], [⟨"f1", "b1"⟩, ⟨"f2", "b2"⟩])) :=
  ⟨⟨by decide, by decide, by decide, by decide, by decide⟩,
    c6_backup_roundtrip [⟨"f1", "b1"⟩, ⟨"f2", "b2"⟩] "movie.srt" "en" "ro"
      [("deck", 1)] (by decide) (by decide) (by decide) (by decide) (by decide)⟩

/-! ## User session registry (src/user_sessions.py) -/

/-- One saved session: deck names, target language, native language. -/
structure Session where
  decks : List String
  target_lang : String
  native_lang : String
  deriving Repr, DecidableEq

/-- The loaded registry structure: the `sessions` and `deck_id` dicts. -/
structure SessionDict where
  sessions : List (String × Session)
  deck_id : List (String × ℕ)
  deriving Repr, DecidableEq

/-- Python dict assignment `m[k] = v`: overwrite in place, or append a new
key at the end. -/
def assoc_set {α : Type} (m : List (String × α)) (k : String) (v : α) :
    List (String × α) :=
  match m with
  | [] => [(k, v)]
  | (k', v') :: rest =>
    if k' = k then (k, v) :: rest else (k', v') :: assoc_set rest k v

/-- The deck-id minting loop of `add_user_session`.  `random.randint` is
modelled by an environment-supplied stream `rng`, sampled once per newly
minted identifier; `random.randint(0, int(2.00e+9))` returns an integer in
the inclusive range `[0, 2000000000]`, so a faithful environment satisfies
`∀ k, rng k ≤ 2000000000`. -/
def mint_deck_ids (rng : ℕ → ℕ) (deck_id : List (String × ℕ)) :
    List String → ℕ → List (String × ℕ)
  | [], _ => deck_id
  | name :: rest, minted =>
    match List.lookup name deck_id with
    | some _ => mint_deck_ids rng deck_id rest minted
    | none => mint_deck_ids rng (deck_id ++ [(name, rng minted)]) rest (minted + 1)

/-- `add_user_session`: mint identifiers for the new deck names, then record
the session (deduplicated deck list — `list(set(...))`, whose unspecified
ordering is modelled by `eraseDups`). -/
def add_user_session (rng : ℕ → ℕ) (sd : SessionDict) (session_name : String)
    (deck_names : List String) (target_lang native_lang : String) :
    SessionDict :=
  { deck_id := mint_deck_ids rng sd.deck_id deck_names 0
    sessions := assoc_set sd.sessions session_name
      ⟨deck_names.eraseDups, target_lang, native_lang⟩ }

/-- `delete_user_session`: `del session_dict[ "sessions" ][ session_name ]`
(Python raises `KeyError` when the name is absent; the removal below is then
a no-op, which the theorems do not rely on). -/
def delete_user_session (sd : SessionDict) (session_name : String) :
    SessionDict :=
  { sd with sessions := sd.sessions.eraseP (fun p => p.1 == session_name) }

/-- A key's binding survives appending entries on the right. -/
theorem lookup_append_of_some {α : Type} (l₁ l₂ : List (String × α))
    (k : String) (v : α) (h : List.lookup k l₁ = some v) :
    List.lookup k (l₁ ++ l₂) = some v := by
  induction l₁ with
  | nil => simp [List.lookup] at h
  | cons p rest ih =>
    rw [List.cons_append]
    by_cases hk : k = p.1
    · simpa [List.lookup, hk] using by simpa [List.lookup, hk] using h
    · have hk' : (k == p.1) = false := by simp [hk]
      simp only [List.lookup, hk'] at h ⊢
      exact ih h

/-- Looking up a key absent from the left part of an append continues on the
right part. -/
theorem lookup_append_of_none {α : Type} (l₁ l₂ : List (String × α))
    (k : String) (h : List.lookup k l₁ = none) :
    List.lookup k (l₁ ++ l₂) = List.lookup k l₂ := by
  induction l₁ with
  | nil => rfl
  | cons p rest ih =>
    by_cases hk : k = p.1
    · simp [List.lookup, hk] at h
    · have hk' : (k == p.1) = false := by simp [hk]
      rw [List.cons_append]
      simp only [List.lookup, hk'] at h ⊢
      exact ih h

/-- A key absent from an association list's keys has no binding. -/
theorem lookup_none_of_not_mem {α : Type} (l : List (String × α)) (k : String)
    (h : k ∉ l.map Prod.fst) : List.lookup k l = none := by
  induction l with
  | nil => rfl
  | cons p rest ih =>
    simp only [List.map_cons, List.mem_cons] at h
    push_neg at h
    have hk : (k == p.1) = false := by simp [h.1]
    simp only [List.lookup, hk]
    exact ih h.2

/-- Minting identifiers never changes an existing binding of `deck_id`. -/
theorem mint_deck_ids_preserves (rng : ℕ → ℕ) (names : List String)
    (dk : List (String × ℕ)) (minted : ℕ) (k : String) (v : ℕ)
    (h : List.lookup k dk = some v) :
    List.lookup k (mint_deck_ids rng dk names minted) = some v := by
  induction names generalizing dk minted with
  | nil => exact h
  | cons name rest ih =>
    cases hlk : List.lookup name dk with
    | some w =>
      simp only [mint_deck_ids, hlk]
      exact ih dk minted h
    | none =>
      simp only [mint_deck_ids, hlk]
      exact ih (dk ++ [(name, rng minted)]) (minted + 1)
        (lookup_append_of_some dk [(name, rng minted)] k v h)

/-- Every deck name not yet bound receives some freshly drawn identifier. -/
theorem mint_deck_ids_adds (rng : ℕ → ℕ) (names : List String)
    (dk : List (String × ℕ)) (minted : ℕ) (d : String)
    (hd : d ∈ names) (hnone : List.lookup d dk = none) :
    ∃ j, List.lookup d (mint_deck_ids rng dk names minted) = some (rng j) := by
  induction names generalizing dk minted with
  | nil => cases hd
  | cons name rest ih =>
    by_cases hdn : d = name
    · subst hdn
      have hbase : List.lookup d (dk ++ [(d, rng minted)]) = some (rng minted) := by
        rw [lookup_append_of_none dk _ d hnone]
        simp [List.lookup]
      refine ⟨minted, ?_⟩
      simp only [mint_deck_ids, hnone]
      exact mint_deck_ids_preserves rng rest (dk ++ [(d, rng minted)])
        (minted + 1) d (rng minted) hbase
    · have hd' : d ∈ rest := by
        rcases List.mem_cons.mp hd with h | h
        · exact absurd h hdn
        · exact h
      cases hlk : List.lookup name dk with
      | some w =>
        simp only [mint_deck_ids, hlk]
        exact ih dk minted hd' hnone
      | none =>
        have hnone' : List.lookup d (dk ++ [(name, rng minted)]) = none := by
          rw [lookup_append_of_none dk _ d hnone]
          have hb : (d == name) = false := by simp [hdn]
          simp [List.lookup, hb]
        simp only [mint_deck_ids, hlk]
        exact ih (dk ++ [(name, rng minted)]) (minted + 1) hd' hnone'

/-- Erasing one session leaves every other key's binding unchanged. -/
theorem lookup_eraseP_ne {α : Type} (l : List (String × α))
    (name other : String) (h : other ≠ name) :
    List.lookup other (l.eraseP (fun p => p.1 == name)) =
      List.lookup other l := by
  induction l with
  | nil => rfl
  | cons p rest ih =>
    by_cases hk : p.1 = name
    · have hb : (p.1 == name) = true := by simp [hk]
      have ho : (other == p.1) = false := by simp [hk, h]
      simp [List.eraseP_cons, hb, List.lookup, ho]
    · have hb : (p.1 == name) = false := by simp [hk]
      by_cases ho : other = p.1
      · simp [List.eraseP_cons, hb, List.lookup, ho]
      · have ho' : (other == p.1) = false := by simp [ho]
        simp [List.eraseP_cons, hb, List.lookup, ho', ih]

/-- With unique keys, erasing a session removes its binding. -/
theorem lookup_eraseP_self {α : Type} (l : List (String × α)) (name : String)
    (hnd : (l.map Prod.fst).Nodup) :
    List.lookup name (l.eraseP (fun p => p.1 == name)) = none := by
  induction l with
  | nil => rfl
  | cons p rest ih =>
    simp only [List.map_cons, List.nodup_cons] at hnd
    by_cases hk : p.1 = name
    · have hb : (p.1 == name) = true := by simp [hk]
      simp only [List.eraseP_cons, hb, cond_true]
      exact lookup_none_of_not_mem rest name (hk ▸ hnd.1)
    · have hb : (p.1 == name) = false := by simp [hk]
      have hn : (name == p.1) = false := by
        rw [beq_eq_false_iff_ne]
        exact fun h => hk h.symm
      simp [List.eraseP_cons, hb, List.lookup, hn, ih hnd.2]

/-- C5 (amended): adding a session assigns each not-yet-bound deck name a
freshly drawn identifier — which, under `random.randint(0, int(2.00e+9))`,
lies in the inclusive interval `[0, 2×10⁹]` — and never changes the binding
of an already-present deck name; deleting a session removes only its own
entry from `sessions` and removes nothing from `deck_id`. -/
theorem c5_registry (rng : ℕ → ℕ) (hrng : ∀ k, rng k ≤ 2000000000)
    (sd : SessionDict) (session_name : String) (deck_names : List String)
    (target_lang native_lang : String) :
    (∀ d i, List.lookup d sd.deck_id = some i →
      List.lookup d (add_user_session rng sd session_name deck_names
        target_lang native_lang).deck_id = some i) ∧
    (∀ d, d ∈ deck_names → List.lookup d sd.deck_id = none →
      ∃ i, List.lookup d (add_user_session rng sd session_name deck_names
        target_lang native_lang).deck_id = some i ∧ i ≤ 2000000000) ∧
    (∀ name, (delete_user_session sd name).deck_id = sd.deck_id) ∧
    (∀ name other, other ≠ name →
      List.lookup other (delete_user_session sd name).sessions =
        List.lookup other sd.sessions) ∧
    (∀ name, (sd.sessions.map Prod.fst).Nodup →
      List.lookup name (delete_user_session sd name).sessions = none) := by
  refine ⟨?_, ?_, fun _ => rfl, ?_, ?_⟩
  · intro d i h
    exact mint_deck_ids_preserves rng deck_names sd.deck_id 0 d i h
  · intro d hd hnone
    obtain ⟨j, hj⟩ := mint_deck_ids_adds rng deck_names sd.deck_id 0 d hd hnone
    exact ⟨rng j, hj, hrng j⟩
  · intro name other h
    exact lookup_eraseP_ne sd.sessions name other h
  · intro name hnd
    exact lookup_eraseP_self sd.sessions name hnd

/-- C5 counterexample: `random.randint(0, int(2.00e+9))` may legitimately
return `2000000000` itself (its upper bound is inclusive), in which case the
freshly assigned deck identifier is *not* in the half-open interval
`[0, 2×10⁹)`. -/
theorem c5_interval_counterexample :
    List.lookup "deck" (add_user_session (fun _ => 2000000000)
      ⟨[], []⟩ "s" ["deck"] "English" "Romanian").deck_id =
        some 2000000000 ∧
    ¬(2000000000 < 2000000000) :=
  ⟨rfl, by decide⟩

/-- The fixed draw stream used by the `c5_registry` witness. -/
def c5_rng : ℕ → ℕ := fun _ => 7

/-- The concrete registry used by the `c5_registry` witness. -/
def c5_sd : SessionDict :=
  ⟨[("old", ⟨["x"], "English", "Romanian"⟩)], [("x", 5)]⟩

/-- Witness for `c5_registry` at a concrete registry. -/
theorem c5_registry_witness :
    List.lookup "x" (add_user_session c5_rng c5_sd "s" ["x", "y"] "English"
      "Romanian").deck_id = some 5 ∧
    (∃ i, List.lookup "y" (add_user_session c5_rng c5_sd "s" ["x", "y"]
      "English" "Romanian").deck_id = some i ∧ i ≤ 2000000000) ∧
    (delete_user_session c5_sd "old").deck_id = c5_sd.deck_id ∧
    List.lookup "other" (delete_user_session c5_sd "old").sessions =
      List.lookup "other" c5_sd.sessions ∧
    List.lookup "old" (delete_user_session c5_sd "old").sessions = none :=
  have h := c5_registry c5_rng (fun _ => by simp only [c5_rng]; decide)
    c5_sd "s" ["x", "y"] "English" "Romanian"
  ⟨h.1 "x" 5 (by decide), h.2.1 "y" (by decide) (by decide),
    h.2.2.1 "old", h.2.2.2.1 "old" "other" (by decide),
    h.2.2.2.2 "old" (by decide)⟩

/-! ## Subtitle parsing: `srt_subtitles` (src/extract_words.py, lines 104-163)

Python strings are modelled as `List Char` here (`Str`), so that the buffer
concatenation of the parser is ordinary list append.  The Python string
predicates are modelled character for character on their ASCII fragment:
`str.isalpha`/`str.isnumeric`/`str.isupper`/`str.islower` consult Unicode
tables in Python; the embedding uses `Char.isAlpha`/`Char.isDigit` etc. -/

/-- A Python string. -/
abbrev Str := List Char

/-- `has_alpha( string )`: some character is alphabetic. -/
def has_alpha (s : Str) : Bool := s.any Char.isAlpha

/-- `str.strip()`: drop leading and trailing whitespace. -/
def py_strip (s : Str) : Str :=
  ((s.dropWhile Char.isWhitespace).reverse.dropWhile Char.isWhitespace).reverse

/-- `str.isnumeric()` on ASCII content: non-empty and all digits. -/
def is_numeric (s : Str) : Bool := !s.isEmpty && s.all Char.isDigit

/-- `int( line )` on a digit string. -/
def parse_int (s : Str) : ℕ := s.foldl (fun n c => 10 * n + (c.toNat - 48)) 0

/-- `line.replace( chr( 65279 ), "" )`: drop every byte-order mark. -/
def bom_free (s : Str) : Str := s.filter (fun c => c ≠ Char.ofNat 65279)

/-- `subtitle.replace( "\n", " " )`. -/
def replace_nl (s : Str) : Str := s.map (fun c => if c = '\n' then ' ' else c)

/-- The fixed 29-character shape of `TIMESTAMP_REGEX`:
`[0-9]{2}:[0-9]{2}:[0-9]{2},[0-9]{3} --> [0-9]{2}:[0-9]{2}:[0-9]{2},[0-9]{3}`. -/
def ts_pattern : List (Char → Bool) :=
  [Char.isDigit, Char.isDigit, (· = ':'), Char.isDigit, Char.isDigit, (· = ':'),
   Char.isDigit, Char.isDigit, (· = ','), Char.isDigit, Char.isDigit, Char.isDigit,
   (· = ' '), (· = '-'), (· = '-'), (· = '>'), (· = ' '),
   Char.isDigit, Char.isDigit, (· = ':'), Char.isDigit, Char.isDigit, (· = ':'),
   Char.isDigit, Char.isDigit, (· = ','), Char.isDigit, Char.isDigit, Char.isDigit]

/-- Match a list of character predicates against a prefix of `s`. -/
def match_at : List (Char → Bool) → Str → Bool
  | [], _ => true
  | _ :: _, [] => false
  | p :: ps, c :: cs => p c && match_at ps cs

/-- `re.search( TIMESTAMP_REGEX, line )`: the pattern matches at some
position. -/
def ts_search : Str → Bool
  | [] => false
  | c :: cs => match_at ts_pattern (c :: cs) || ts_search cs

/-- The character class `[<|\/<]` of `TAG_REGEX`, i.e. `<`, `|` or `/`. -/
def tag_class (c : Char) : Bool := c = '<' || c = '|' || c = '/'

/-- The `.` of `TAG_REGEX`: any character but a newline. -/
def dot_ok (c : Char) : Bool := c ≠ '\n'

/-- After `k` class characters, can the `.` and the literal `>` close a
match of `TAG_REGEX = [<|\/<]*.>` here? -/
def tag_match_end (s : Str) (k : ℕ) : Bool :=
  match s.drop k with
  | c₀ :: c₁ :: _ => dot_ok c₀ && (c₁ = '>')
  | _ => false

/-- Greedy-with-backtracking search for the class-run length: the largest
`k` at most the maximal run for which the match closes. -/
def tag_backtrack (s : Str) : ℕ → Option ℕ
  | 0 => if tag_match_end s 0 then some 0 else none
  | k + 1 => if tag_match_end s (k + 1) then some (k + 1) else tag_backtrack s k

/-- Length of the `TAG_REGEX` match starting at the head of `s`, if any. -/
def tag_match_len (s : Str) : Option ℕ :=
  match tag_backtrack s (s.takeWhile tag_class).length with
  | some k => some (k + 2)
  | none => none

/-- The left-to-right, non-overlapping scan of `re.sub( TAG_REGEX, "", s )`.
Each iteration consumes at least one character, so a fuel of `s.length`
makes the recursion structural without cutting the scan short. -/
def strip_tags_go : ℕ → Str → Str
  | _, [] => []
  | 0, s => s
  | fuel + 1, c :: cs =>
    match tag_match_len (c :: cs) with
    | some len => strip_tags_go fuel ((c :: cs).drop len)
    | none => c :: strip_tags_go fuel cs

/-- `re.sub( TAG_REGEX, "", s )`. -/
def strip_tags (s : Str) : Str := strip_tags_go s.length s

/-- The mutable locals of the `srt_subtitles` read loop. -/
structure SrtState where
  counting : Bool
  num : ℕ
  ts_seen : Bool
  subtitle : Str
  subtitles : List Str
  deriving Repr, DecidableEq

/-- The flush of a finished block (source lines 142-145): strip tags, strip
whitespace, strip again, replace newlines, append the separator. -/
def flush_block (subtitle sep : Str) : Str :=
  replace_nl (py_strip (py_strip (strip_tags subtitle))) ++ sep

/-- The end-of-file flush (source lines 160-161): unlike `flush_block`, it
does *not* strip tags. -/
def flush_last (subtitle sep : Str) : Str :=
  replace_nl (py_strip subtitle) ++ sep

/-- One iteration of the `while line:` loop of `srt_subtitles`. -/
def srt_step (sep : Str) (st : SrtState) (line : Str) : SrtState :=
  if st.counting = false then
    let line' := py_strip (bom_free line)
    if is_numeric line' then
      { st with
        counting := true
        num := parse_int line'
        subtitles := st.subtitles ++ List.replicate (parse_int line') sep }
    else st
  else
    let line' := py_strip line
    if is_numeric line' = true ∧ parse_int line' = st.num + 1 then
      { st with
        num := st.num + 1
        ts_seen := false
        subtitle := []
        subtitles := st.subtitles ++ [flush_block st.subtitle sep] }
    else if ts_search line' then { st with ts_seen := true }
    else if has_alpha line' = true ∧ st.ts_seen = true then
      { st with subtitle := st.subtitle ++ py_strip line' ++ [' '] }
    else st

/-- `srt_subtitles`, over the file's lines. -/
def srt_subtitles (lines : List Str) (separator : Str) : List Str :=
  let st := lines.foldl (srt_step separator) ⟨false, 0, false, [], []⟩
  if st.ts_seen then st.subtitles ++ [flush_last st.subtitle separator]
  else st.subtitles

/-- One block of a well-formed subtitle file: its number line, its timestamp
line and its text lines (followed in the file by a blank line). -/
structure SrtBlock where
  num_line : Str
  ts_line : Str
  text_lines : List Str
  deriving Repr, DecidableEq

/-- The lines a block contributes to the file. -/
def block_lines (b : SrtBlock) : List Str :=
  b.num_line :: b.ts_line :: b.text_lines ++ [[]]

/-- The lines of a whole well-formed subtitle file. -/
def file_lines (blocks : List SrtBlock) : List Str :=
  (blocks.map block_lines).flatten

/-- The parser's text buffer once a block's text lines are consumed. -/
def accum_text (b : SrtBlock) : Str :=
  (b.text_lines.map (fun l => py_strip (py_strip l) ++ [' '])).flatten

/-- A valid block-number line carrying the number `n`: no byte-order mark,
and numeric once stripped. -/
def NumLineOK (n : ℕ) (l : Str) : Prop :=
  bom_free l = l ∧ is_numeric (py_strip l) = true ∧ parse_int (py_strip l) = n

/-- A valid timestamp line: the timestamp pattern occurs, and the line is
not itself a bare number. -/
def TsLineOK (l : Str) : Prop :=
  ts_search (py_strip l) = true ∧ is_numeric (py_strip l) = false

/-- A valid subtitle text line: it has an alphabetic character, contains no
timestamp, and is not a bare number. -/
def TextLineOK (l : Str) : Prop :=
  has_alpha (py_strip l) = true ∧ ts_search (py_strip l) = false ∧
    is_numeric (py_strip l) = false

/-- A valid block numbered `n`. -/
def ValidBlock (n : ℕ) (b : SrtBlock) : Prop :=
  NumLineOK n b.num_line ∧ TsLineOK b.ts_line ∧ ∀ l ∈ b.text_lines, TextLineOK l

/-- Consecutively numbered valid blocks starting at `n`. -/
def ValidChain (n : ℕ) (bs : List SrtBlock) : Prop :=
  ∀ i (h : i < bs.length), ValidBlock (n + i) (bs.get ⟨i, h⟩)

/-- C4 counterexample: in the one-block file `1 / timestamp / <i>Hello</i>`,
the single block is flushed by the end-of-file path, which does not strip
tags: the entry at index 1 is `"<i>Hello</i>"`, not the tag-stripped
`"Hello"` the claim requires for every block. -/
theorem c4_last_block_counterexample :
    srt_subtitles ["1".data, "00:00:01,000 --> 00:00:02,000".data,
      "<i>Hello</i>".data, []] [] = [[], "<i>Hello</i>".data] ∧
    flush_block "<i>Hello</i> ".data [] = "Hello".data ∧
    "<i>Hello</i>".data ≠ "Hello".data :=
  ⟨by decide, by decide, by decide⟩

/-- In accumulating state, a blank line changes nothing. -/
theorem srt_step_blank (sep : Str) (st : SrtState) (hc : st.counting = true) :
    srt_step sep st [] = st := by
  simp [srt_step, hc, py_strip, is_numeric, ts_search, has_alpha]

/-- In accumulating state with a timestamp seen, a valid text line is
appended (stripped, with a trailing blank) to the buffer. -/
theorem srt_step_text (sep : Str) (st : SrtState) (l : Str)
    (hc : st.counting = true) (hts : st.ts_seen = true) (hl : TextLineOK l) :
    srt_step sep st l =
      { st with subtitle := st.subtitle ++ py_strip (py_strip l) ++ [' '] } := by
  obtain ⟨h1, h2, h3⟩ := hl
  simp [srt_step, hc, hts, h1, h2, h3]

/-- In accumulating state, a valid timestamp line sets the timestamp flag. -/
theorem srt_step_ts (sep : Str) (st : SrtState) (l : Str)
    (hc : st.counting = true) (hl : TsLineOK l) :
    srt_step sep st l = { st with ts_seen := true } := by
  obtain ⟨h1, h2⟩ := hl
  simp [srt_step, hc, h1, h2]

/-- In seeking state, the first numeric line starts the count and
pre-populates the placeholders. -/
theorem srt_step_seek_num (sep : Str) (st : SrtState) (l : Str) (n : ℕ)
    (hc : st.counting = false) (hl : NumLineOK n l) :
    srt_step sep st l =
      { st with
        counting := true
        num := n
        subtitles := st.subtitles ++ List.replicate n sep } := by
  obtain ⟨hb, h1, h2⟩ := hl
  simp [srt_step, hc, hb, h1, h2]

/-- In accumulating state, the next block's number line flushes the buffered
block. -/
theorem srt_step_trigger (sep : Str) (st : SrtState) (l : Str)
    (hc : st.counting = true) (hl : NumLineOK (st.num + 1) l) :
    srt_step sep st l =
      { st with
        num := st.num + 1
        ts_seen := false
        subtitle := []
        subtitles := st.subtitles ++ [flush_block st.subtitle sep] } := by
  obtain ⟨hb, h1, h2⟩ := hl
  simp [srt_step, hc, h1, h2]

/-- Folding the parser over a run of valid text lines appends their stripped
contents to the buffer. -/
theorem fold_text_lines (sep : Str) (ls : List Str) : ∀ st : SrtState,
    st.counting = true → st.ts_seen = true → (∀ l ∈ ls, TextLineOK l) →
    List.foldl (srt_step sep) st ls =
      { st with subtitle :=
          st.subtitle ++ (ls.map (fun l => py_strip (py_strip l) ++ [' '])).flatten } := by
  induction ls with
  | nil => intro st _ _ _; simp
  | cons l rest ih =>
    intro st hc hts hall
    rw [List.foldl_cons, srt_step_text sep st l hc hts (hall l (List.mem_cons_self _ _))]
    rw [ih { st with subtitle := st.subtitle ++ py_strip (py_strip l) ++ [' '] }
      hc hts (fun x hx => hall x (List.mem_cons_of_mem _ hx))]
    simp [List.append_assoc]

/-- Folding the parser over a block's timestamp line, text lines and blank
line sets the timestamp flag and buffers the block's text. -/
theorem fold_block_tail (sep : Str) (b : SrtBlock) (st : SrtState)
    (hc : st.counting = true) (hts : TsLineOK b.ts_line)
    (htext : ∀ l ∈ b.text_lines, TextLineOK l) :
    List.foldl (srt_step sep) st (b.ts_line :: b.text_lines ++ [[]]) =
      { st with ts_seen := true, subtitle := st.subtitle ++ accum_text b } := by
  rw [show List.foldl (srt_step sep) st (b.ts_line :: b.text_lines ++ [[]]) =
      List.foldl (srt_step sep) (srt_step sep st b.ts_line)
        (b.text_lines ++ [[]]) from rfl,
    srt_step_ts sep st b.ts_line hc hts, List.foldl_append,
    fold_text_lines sep b.text_lines { st with ts_seen := true } hc rfl htext,
    show ∀ s : SrtState, List.foldl (srt_step sep) s [([] : Str)] =
      srt_step sep s [] from fun _ => rfl]
  simp [srt_step_blank, hc, accum_text]

/-- What the parser accumulates while replaying a run of blocks: the final
buffer and the flushed subtitles. -/
def chain_fold (sep : Str) : Str → List Str → List SrtBlock → Str × List Str
  | subtitle, subtitles, [] => (subtitle, subtitles)
  | subtitle, subtitles, b :: bs =>
    chain_fold sep (accum_text b) (subtitles ++ [flush_block subtitle sep]) bs

/-- Splitting a valid chain at its head. -/
theorem valid_chain_cons {n : ℕ} {b : SrtBlock} {bs : List SrtBlock}
    (h : ValidChain n (b :: bs)) : ValidBlock n b ∧ ValidChain (n + 1) bs := by
  constructor
  · simpa using h 0 (by simp)
  · intro i hi
    have hx := h (i + 1) (by simpa using Nat.succ_lt_succ hi)
    have heq : n + (i + 1) = n + 1 + i := by omega
    simpa [heq] using hx

/-- Replaying a run of consecutively numbered valid blocks from an
accumulating state with the timestamp flag set. -/
theorem fold_chain (sep : Str) (bs : List SrtBlock) : ∀ (n : ℕ) (st : SrtState),
    st.counting = true → st.ts_seen = true → st.num = n →
    ValidChain (n + 1) bs →
    List.foldl (srt_step sep) st ((bs.map block_lines).flatten) =
      { counting := true
        num := n + bs.length
        ts_seen := true
        subtitle := (chain_fold sep st.subtitle st.subtitles bs).1
        subtitles := (chain_fold sep st.subtitle st.subtitles bs).2 } := by
  induction bs with
  | nil =>
    intro n st hc hts hnum _
    cases st
    simp only at hc hts hnum
    subst hc
    subst hts
    subst hnum
    simp [chain_fold]
  | cons b bs ih =>
    intro n st hc hts hnum hv
    obtain ⟨hb, hrest⟩ := valid_chain_cons hv
    rw [List.map_cons, List.flatten_cons, List.foldl_append]
    rw [show block_lines b = b.num_line :: (b.ts_line :: b.text_lines ++ [[]])
      from rfl]
    rw [show List.foldl (srt_step sep) st
        (b.num_line :: (b.ts_line :: b.text_lines ++ [[]])) =
        List.foldl (srt_step sep) (srt_step sep st b.num_line)
          (b.ts_line :: b.text_lines ++ [[]]) from rfl,
      srt_step_trigger sep st b.num_line hc (hnum ▸ hb.1),
      fold_block_tail sep b
        { st with
          num := st.num + 1
          ts_seen := false
          subtitle := []
          subtitles := st.subtitles ++ [flush_block st.subtitle sep] }
        hc hb.2.1 hb.2.2]
    rw [ih (n + 1)
      { counting := st.counting
        num := st.num + 1
        ts_seen := true
        subtitle := [] ++ accum_text b
        subtitles := st.subtitles ++ [flush_block st.subtitle sep] }
      hc rfl (by simp [hnum]) (by simpa using hrest)]
    simp [chain_fold, hnum, Nat.add_assoc, Nat.add_comm 1 bs.length]

/-- The subtitles flushed by a chain replay: one `flush_block` per block,
except that the last block's text stays in the buffer. -/
theorem chain_fold_snd (sep : Str) (bs : List SrtBlock) : ∀ (sub : Str)
    (acc : List Str), (chain_fold sep sub acc bs).2 =
      acc ++ ((sub :: bs.map accum_text).take bs.length).map
        (fun t => flush_block t sep) := by
  induction bs with
  | nil => intro sub acc; simp [chain_fold]
  | cons b bs ih =>
    intro sub acc
    rw [show chain_fold sep sub acc (b :: bs) =
      chain_fold sep (accum_text b) (acc ++ [flush_block sub sep]) bs from rfl]
    rw [ih]
    simp [List.append_assoc]

/-- The buffer left over after a chain replay: the last block's text, or the
incoming buffer when the chain is empty. -/
theorem chain_fold_fst (sep : Str) (bs : List SrtBlock) : ∀ (sub : Str)
    (acc : List Str), (chain_fold sep sub acc bs).1 =
      (bs.map accum_text).getLastD sub := by
  induction bs with
  | nil => intro sub acc; simp [chain_fold]
  | cons b bs ih =>
    intro sub acc
    rw [show chain_fold sep sub acc (b :: bs) =
      chain_fold sep (accum_text b) (acc ++ [flush_block sub sep]) bs from rfl]
    rw [ih, List.map_cons, List.getLastD_cons]

/-- `getLastD` commutes with `map` when the default is mapped too. -/
theorem getLastD_map {α β : Type} (f : α → β) (l : List α) : ∀ a : α,
    (l.map f).getLastD (f a) = f (l.getLastD a) := by
  induction l with
  | nil => intro a; rfl
  | cons x l ih =>
    intro a
    rw [List.map_cons, List.getLastD_cons, List.getLastD_cons, ih]

/-- The full replay of a valid file: `n₁` placeholders, a tag-stripped flush
for every block but the last, and the end-of-file flush (no tag stripping)
for the last block. -/
theorem srt_subtitles_valid_file (b₀ : SrtBlock) (bs : List SrtBlock)
    (n₁ : ℕ) (sep : Str) (hv : ValidChain n₁ (b₀ :: bs)) :
    srt_subtitles (file_lines (b₀ :: bs)) sep =
      List.replicate n₁ sep ++
        ((accum_text b₀ :: bs.map accum_text).take bs.length).map
          (fun t => flush_block t sep) ++
        [flush_last ((bs.map accum_text).getLastD (accum_text b₀)) sep] := by
  obtain ⟨hb₀, hrest⟩ := valid_chain_cons hv
  have h1 : List.foldl (srt_step sep) ⟨false, 0, false, [], []⟩
      (file_lines (b₀ :: bs)) =
      { counting := true
        num := n₁ + bs.length
        ts_seen := true
        subtitle := (chain_fold sep (accum_text b₀) (List.replicate n₁ sep) bs).1
        subtitles := (chain_fold sep (accum_text b₀) (List.replicate n₁ sep) bs).2 } := by
    rw [show file_lines (b₀ :: bs) =
      block_lines b₀ ++ (bs.map block_lines).flatten from by simp [file_lines],
      List.foldl_append,
      show List.foldl (srt_step sep) ⟨false, 0, false, [], []⟩ (block_lines b₀) =
        List.foldl (srt_step sep)
          (srt_step sep ⟨false, 0, false, [], []⟩ b₀.num_line)
          (b₀.ts_line :: b₀.text_lines ++ [[]]) from rfl,
      srt_step_seek_num sep ⟨false, 0, false, [], []⟩ b₀.num_line n₁ rfl hb₀.1,
      fold_block_tail sep b₀
        { counting := true, num := n₁, ts_seen := false, subtitle := [],
          subtitles := [] ++ List.replicate n₁ sep }
        rfl hb₀.2.1 hb₀.2.2,
      fold_chain sep bs n₁
        { counting := true, num := n₁, ts_seen := true,
          subtitle := [] ++ accum_text b₀,
          subtitles := [] ++ List.replicate n₁ sep }
        rfl rfl rfl (by simpa using hrest)]
    simp
  rw [srt_subtitles, h1]
  simp [chain_fold_snd, chain_fold_fst]

/-- C4 (amended): for every valid subtitle file whose blocks are numbered
consecutively from `n₁ ≥ 1`, parsing yields a list of length `n₁ + #blocks`
(hence at least the highest block index); every index below `n₁` holds the
separator placeholder; the entry of every block but the last is its
tag-stripped, whitespace-trimmed text; the entry of the *last* block is its
whitespace-trimmed text only — the end-of-file flush does not strip tags. -/
theorem c4_srt_alignment (blocks : List SrtBlock) (n₁ : ℕ) (sep : Str)
    (hne : blocks ≠ []) (_hn : 1 ≤ n₁) (hv : ValidChain n₁ blocks) :
    (srt_subtitles (file_lines blocks) sep).length = n₁ + blocks.length ∧
    (∀ j, j < n₁ → (srt_subtitles (file_lines blocks) sep)[j]? = some sep) ∧
    (∀ i (hi : i < blocks.length), i < blocks.length - 1 →
      (srt_subtitles (file_lines blocks) sep)[n₁ + i]? =
        some (flush_block (accum_text (blocks.get ⟨i, hi⟩)) sep)) ∧
    (srt_subtitles (file_lines blocks) sep)[n₁ + (blocks.length - 1)]? =
      some (flush_last (accum_text (blocks.getLast hne)) sep) := by
  obtain ⟨b₀, bs, rfl⟩ := List.exists_cons_of_ne_nil hne
  have hres := srt_subtitles_valid_file b₀ bs n₁ sep hv
  have hlenB : (((accum_text b₀ :: bs.map accum_text).take bs.length).map
      (fun t => flush_block t sep)).length = bs.length := by
    simp [List.length_take]
  refine ⟨?_, ?_, ?_, ?_⟩
  · rw [hres]
    simp only [List.length_append, List.length_replicate, hlenB,
      List.length_cons, List.length_nil]
    omega
  · intro j hj
    rw [hres, List.append_assoc, List.getElem?_append]
    simp [hj, List.getElem?_replicate]
  · intro i hi hlt
    have hlt' : i < bs.length := by simpa using hlt
    rw [hres, List.append_assoc, List.getElem?_append]
    have hge : ¬(n₁ + i < (List.replicate n₁ sep).length) := by simp
    rw [if_neg hge]
    simp only [List.length_replicate, Nat.add_sub_cancel_left]
    rw [List.getElem?_append]
    rw [if_pos (by rw [hlenB]; exact hlt')]
    rw [List.getElem?_map, List.getElem?_take, if_pos hlt',
      show accum_text b₀ :: bs.map accum_text = (b₀ :: bs).map accum_text
        from rfl,
      List.getElem?_eq_getElem (by simpa using hi)]
    simp only [Option.map_some, Option.some.injEq, List.get_eq_getElem]
    cases i with
    | zero => rfl
    | succ k => simp [List.getElem_cons_succ, List.getElem_map]
  · rw [hres, List.append_assoc, List.getElem?_append]
    have hL : (b₀ :: bs).length - 1 = bs.length := by simp
    rw [hL]
    have hge : ¬(n₁ + bs.length < (List.replicate n₁ sep).length) := by simp
    rw [if_neg hge]
    simp only [List.length_replicate, Nat.add_sub_cancel_left]
    rw [List.getElem?_append]
    rw [if_neg (by rw [hlenB]; omega)]
    rw [hlenB]
    simp [List.getLast_eq_getLastD, getLastD_map]

instance (n : ℕ) (l : Str) : Decidable (NumLineOK n l) := by
  unfold NumLineOK; infer_instance

instance (l : Str) : Decidable (TsLineOK l) := by
  unfold TsLineOK; infer_instance

instance (l : Str) : Decidable (TextLineOK l) := by
  unfold TextLineOK; infer_instance

instance (n : ℕ) (b : SrtBlock) : Decidable (ValidBlock n b) := by
  unfold ValidBlock; infer_instance

instance (n : ℕ) (bs : List SrtBlock) : Decidable (ValidChain n bs) := by
  unfold ValidChain; infer_instance

/-- A timestamp line used by the `c4_srt_alignment` witness. -/
def c4w_ts : Str := "00:00:01,000 --> 00:00:02,000".data

/-- The two-block file used by the `c4_srt_alignment` witness. -/
def c4w_blocks : List SrtBlock :=
  [⟨"1".data, c4w_ts, ["Hi there".data]⟩,
   ⟨"2".data, c4w_ts, ["<i>Bye</i> now".data]⟩]

/-- Witness for `c4_srt_alignment` at a concrete two-block file. -/
theorem c4_srt_alignment_witness :
    (c4w_blocks ≠ [] ∧ 1 ≤ 1 ∧ ValidChain 1 c4w_blocks) ∧
    ((srt_subtitles (file_lines c4w_blocks) []).length = 1 + c4w_blocks.length ∧
      (∀ j, j < 1 → (srt_subtitles (file_lines c4w_blocks) [])[j]? = some []) ∧
      (∀ i (hi : i < c4w_blocks.length), i < c4w_blocks.length - 1 →
        (srt_subtitles (file_lines c4w_blocks) [])[1 + i]? =
          some (flush_block (accum_text (c4w_blocks.get ⟨i, hi⟩)) [])) ∧
      (srt_subtitles (file_lines c4w_blocks) [])[1 + (c4w_blocks.length - 1)]? =
        some (flush_last (accum_text (c4w_blocks.getLast (by decide))) [])) :=
  ⟨⟨by decide, by decide, by decide⟩,
    c4_srt_alignment c4w_blocks 1 [] (by decide) (by decide) (by decide)⟩

/-! ## Per-document analysis: `analyze_file_new` (src/extract_words.py,
lines 191-308)

The spaCy language model is a boundary dependency: it is passed in as an
abstract tokenizer `model : Str → List SpacyToken`.  The Unicode property
classes `\p{Latin}` and `\p{Cyrillic}` of the `regex` module are likewise
environment tables, passed in as `isLatin`/`isCyr`. -/

/-- The attributes of a spaCy token that `analyze_file_new` consumes. -/
structure SpacyToken where
  text : Str
  lemma_ : Str
  is_punct : Bool
  is_sent_start : Bool
  deriving Repr, DecidableEq

/-- `str.lower()` (ASCII fragment). -/
def py_lower (s : Str) : Str := s.map Char.toLower

/-- A cased character, for `str.islower()` (ASCII fragment). -/
def is_cased (c : Char) : Bool := c.isUpper || c.isLower

/-- `str.islower()`: at least one cased character, and no cased character
uppercase.  In particular `"".islower()` is `False`. -/
def py_islower (s : Str) : Bool :=
  s.any is_cased && s.all (fun c => !is_cased c || c.isLower)

/-- `is_namecase`: first character uppercase and the rest lowercase.  The
`[]` case is unreachable from `analyze_file_new` (tokens with no alphabetic
character are skipped before the check; Python would raise on `""`). -/
def is_namecase (s : Str) : Bool :=
  match s with
  | [] => false
  | c :: rest => c.isUpper && py_islower rest

/-- `re.match( r"[\p{Latin}]{1,50}'[\p{Latin}]{2,50}", text )`: between one
and fifty Latin letters, an apostrophe, then at least two Latin letters.
The greedy class backtracks only onto Latin letters, never onto the
apostrophe, so the split must sit at the full leading run. -/
def german_elision (isLatin : Char → Bool) (s : Str) : Bool :=
  let r := (s.takeWhile isLatin).length
  decide (1 ≤ r) && decide (r ≤ 50) &&
    (match s.drop r with
     | '\'' :: c₁ :: c₂ :: _ => isLatin c₁ && isLatin c₂
     | _ => false)

/-- `re.sub( r"[^\p{Latin}\p{Cyrillic}]", " ", s ).split()`: blank out every
character outside the two alphabets, then split on blanks, dropping empty
pieces. -/
def split_words (isLatin isCyr : Char → Bool) (s : Str) : List Str :=
  ((s.map (fun c => if isLatin c || isCyr c then c else ' ')).splitOnP
    (· = ' ')).filter (· ≠ [])

/-- `" ".join( words )`. -/
def join_sp (ws : List Str) : Str := List.intercalate [' '] ws

/-- The result of `analyze_file_new`: the word→subtitle-ids index, the
surviving likely names with their sentence positions, and the word total. -/
structure FileStats where
  wsid : List (Str × List ℕ)
  likely_names : List (Str × List ℕ)
  total_words : ℕ
  deriving Repr, DecidableEq

/-- The mutable locals of the token loop of `analyze_file_new`. -/
structure AnalyzeState where
  line_counter : ℕ
  word_counter : ℕ
  pos_counter : ℕ
  wsid : List (Str × List ℕ)
  cand : List (Str × List ℕ)
  deriving Repr, DecidableEq

/-- Python `dict`-of-lists update: append `v` to `m[ k ]`, creating the
entry if needed (new keys go to the end, as in a Python dict). -/
def assoc_append {α : Type} : List (Str × List α) → Str → α → List (Str × List α)
  | [], k, v => [(k, [v])]
  | (k', vs) :: rest, k, v =>
    if k' = k then (k', vs ++ [v]) :: rest else (k', vs) :: assoc_append rest k v

/-- The `save_word` helper: record the subtitle id under the word and, when
the enclosing document token is name-cased, record the sentence position as
a likely-name candidate. -/
def save_word (tok_text word : Str) (st : AnalyzeState) : AnalyzeState :=
  { st with
    wsid := assoc_append st.wsid word st.line_counter
    cand := if is_namecase tok_text then assoc_append st.cand word st.pos_counter
      else st.cand }

/-- `save_word` followed by the `pos_counter`/`word_counter` increments that
accompany it at every call site. -/
def save_word_inc (tok_text word : Str) (st : AnalyzeState) : AnalyzeState :=
  let st := save_word tok_text word st
  { st with
    pos_counter := st.pos_counter + 1
    word_counter := st.word_counter + 1 }

/-- The lower half of the token-loop body, from the punctuation skip on:
applied once the sentence-position reset has been performed.  The source's
`doc[ i ] is None` disjunct is dead code (a tokenizer never yields `None`)
and is dropped from the skip condition. -/
def analyze_word_part (model : Str → List SpacyToken) (lang : Str)
    (isLatin isCyr : Char → Bool) (t : SpacyToken)
    (st : AnalyzeState) : AnalyzeState :=
  if t.is_punct = true ∨ t.text = [' '] ∨ has_alpha t.text = false then st
  else if german_elision isLatin t.text = true ∧ lang = "de".data then
    save_word_inc t.text (py_lower t.text) st
  else
    match split_words isLatin isCyr (py_lower t.lemma_) with
    | [w] => save_word_inc t.text w st
    | _ =>
      (model (join_sp (split_words isLatin isCyr (py_lower t.lemma_)))).foldl
        (fun s t2 =>
          if has_alpha t2.lemma_ then save_word_inc t.text (py_lower t2.lemma_) s
          else s) st

/-- One iteration of the token loop of `analyze_file_new`; `prev` is
`doc[ i ].nbor( -1 )` when `doc[ i ].i > 0`. -/
def analyze_token (model : Str → List SpacyToken) (lang : Str)
    (isLatin isCyr : Char → Bool) (prev : Option SpacyToken) (t : SpacyToken)
    (st : AnalyzeState) : AnalyzeState :=
  if t.text = "Endlineword".data then
    { st with line_counter := st.line_counter + 1, pos_counter := 0 }
  else
    let prev_reset : Bool :=
      match prev with
      | some p => (p.is_punct && p.is_sent_start) || decide (p.text = ['-'])
      | none => false
    let pos0 := if t.is_sent_start = true ∨ prev_reset = true then 0
      else st.pos_counter
    analyze_word_part model lang isLatin isCyr t { st with pos_counter := pos0 }

/-- The whole token loop, threading the previous token. -/
def analyze_loop (model : Str → List SpacyToken) (lang : Str)
    (isLatin isCyr : Char → Bool) :
    Option SpacyToken → List SpacyToken → AnalyzeState → AnalyzeState
  | _, [], st => st
  | prev, t :: rest, st =>
    analyze_loop model lang isLatin isCyr (some t) rest
      (analyze_token model lang isLatin isCyr prev t st)

/-- The document `analyze_file_new` tokenizes: the subtitle lines parsed
with the `" Endlineword"` separator, joined with newlines. -/
def analyze_doc (model : Str → List SpacyToken) (lines : List Str) :
    List SpacyToken :=
  model (List.intercalate ['\n'] (srt_subtitles lines " Endlineword".data))

/-- The loop state at the end of the token loop of `analyze_file_new`. -/
def analyze_run (model : Str → List SpacyToken) (lang : Str)
    (isLatin isCyr : Char → Bool) (lines : List Str) : AnalyzeState :=
  analyze_loop model lang isLatin isCyr none (analyze_doc model lines)
    ⟨0, 0, 0, [], []⟩

/-- The likely-name candidates recorded by the loop, before the
`definitely_not_names` filter. -/
def analyze_candidates (model : Str → List SpacyToken) (lang : Str)
    (isLatin isCyr : Char → Bool) (lines : List Str) : List (Str × List ℕ) :=
  (analyze_run model lang isLatin isCyr lines).cand

/-- `analyze_file_new`: run the loop, then drop every candidate that was
also seen in another casing, or seen fewer than twice name-cased, or seen
only at sentence-initial position. -/
def analyze_file_new (model : Str → List SpacyToken) (lang : Str)
    (isLatin isCyr : Char → Bool) (lines : List Str) : FileStats :=
  let st := analyze_run model lang isLatin isCyr lines
  { wsid := st.wsid
    likely_names := st.cand.filter (fun p =>
      ¬(((List.lookup p.1 st.wsid).getD []).length > p.2.length ∨
        p.2.length < 2 ∨ p.2.all (fun x => x = 0)))
    total_words := st.word_counter }

/-- Total number of recorded occurrences in a word index. -/
def wsid_size (m : List (Str × List ℕ)) : ℕ :=
  (m.map (fun p => p.2.length)).sum

/-- Appending one occurrence grows the total by exactly one. -/
theorem assoc_append_size (m : List (Str × List ℕ)) (k : Str) (v : ℕ) :
    wsid_size (assoc_append m k v) = wsid_size m + 1 := by
  induction m with
  | nil => simp [assoc_append, wsid_size]
  | cons p rest ih =>
    obtain ⟨k', vs⟩ := p
    by_cases hk : k' = k
    · simp [assoc_append, hk, wsid_size, List.sum_cons]
      omega
    · simp only [assoc_append, hk, if_false, wsid_size, List.map_cons,
        List.sum_cons] at ih ⊢
      omega

/-- The keys after an `assoc_append`: unchanged for a present key, the new
key appended otherwise. -/
theorem assoc_append_keys {α : Type} (m : List (Str × List α)) (k : Str)
    (v : α) :
    (assoc_append m k v).map Prod.fst =
      if (List.lookup k m).isSome then m.map Prod.fst
      else m.map Prod.fst ++ [k] := by
  induction m with
  | nil => simp [assoc_append, List.lookup]
  | cons p rest ih =>
    obtain ⟨k', vs⟩ := p
    by_cases hk : k' = k
    · subst hk
      simp [assoc_append, List.lookup]
    · have hb : (k == k') = false := by
        rw [beq_eq_false_iff_ne]
        exact fun h => hk h.symm
      simp only [assoc_append, hk, if_false, List.map_cons, List.lookup, hb, ih]
      by_cases hs : (List.lookup k rest).isSome
      · simp [hs]
      · simp only [Bool.not_eq_true] at hs
        simp [hs]

/-- A key with no binding does not occur among the keys. -/
theorem not_mem_of_lookup_none {κ α : Type} [BEq κ] [LawfulBEq κ]
    (l : List (κ × α)) (k : κ)
    (h : List.lookup k l = none) : k ∉ l.map Prod.fst := by
  induction l with
  | nil => simp
  | cons p rest ih =>
    by_cases hk : k = p.1
    · simp [List.lookup, hk] at h
    · have hb : (k == p.1) = false := by simp [hk]
      simp only [List.lookup, hb] at h
      simp only [List.map_cons, List.mem_cons]
      push_neg
      exact ⟨hk, ih h⟩

/-- The loop invariant behind C9: the word counter equals the number of
recorded occurrences, and the word index has no duplicate keys. -/
def AnalyzeInv (st : AnalyzeState) : Prop :=
  st.word_counter = wsid_size st.wsid ∧ (st.wsid.map Prod.fst).Nodup

/-- `save_word` plus its counter increments preserves the invariant. -/
theorem save_word_inc_inv (tok w : Str) (st : AnalyzeState)
    (h : AnalyzeInv st) : AnalyzeInv (save_word_inc tok w st) := by
  obtain ⟨h1, h2⟩ := h
  constructor
  · rw [show (save_word_inc tok w st).word_counter = st.word_counter + 1
      from rfl,
      show (save_word_inc tok w st).wsid =
        assoc_append st.wsid w st.line_counter from rfl,
      assoc_append_size, h1]
  · rw [show (save_word_inc tok w st).wsid =
      assoc_append st.wsid w st.line_counter from rfl, assoc_append_keys]
    cases hx : List.lookup w st.wsid with
    | some v => simp [hx, h2]
    | none =>
      have hnm : w ∉ st.wsid.map Prod.fst :=
        not_mem_of_lookup_none st.wsid w hx
      simp only [hx, Option.isSome_none, Bool.false_eq_true, if_false]
      exact List.Nodup.append h2 (by simp) (by simpa using hnm)

/-- The re-lemmatization loop of the compound-word branch preserves the
invariant. -/
theorem mini_fold_inv (toks : List SpacyToken) (tok_text : Str) :
    ∀ s : AnalyzeState, AnalyzeInv s →
    AnalyzeInv (toks.foldl (fun s t2 =>
      if has_alpha t2.lemma_ then save_word_inc tok_text (py_lower t2.lemma_) s
      else s) s) := by
  induction toks with
  | nil => intro s hs; exact hs
  | cons t2 rest ih =>
    intro s hs
    simp only [List.foldl_cons]
    by_cases ha : has_alpha t2.lemma_ = true
    · rw [if_pos ha]
      exact ih _ (save_word_inc_inv _ _ _ hs)
    · rw [if_neg ha]
      exact ih _ hs

/-- Each token step preserves the invariant. -/
theorem analyze_token_inv (model : Str → List SpacyToken) (lang : Str)
    (isLatin isCyr : Char → Bool) (prev : Option SpacyToken) (t : SpacyToken)
    (st : AnalyzeState) (h : AnalyzeInv st) :
    AnalyzeInv (analyze_token model lang isLatin isCyr prev t st) := by
  have hpart : ∀ s : AnalyzeState, AnalyzeInv s →
      AnalyzeInv (analyze_word_part model lang isLatin isCyr t s) := by
    intro s hs
    unfold analyze_word_part
    split
    · exact hs
    · split
      · exact save_word_inc_inv _ _ _ hs
      · split
        · exact save_word_inc_inv _ _ _ hs
        · exact mini_fold_inv _ _ _ hs
  unfold analyze_token
  split
  · exact h
  · exact hpart _ h

/-- The whole loop preserves the invariant. -/
theorem analyze_loop_inv (model : Str → List SpacyToken) (lang : Str)
    (isLatin isCyr : Char → Bool) (toks : List SpacyToken) :
    ∀ (prev : Option SpacyToken) (st : AnalyzeState), AnalyzeInv st →
    AnalyzeInv (analyze_loop model lang isLatin isCyr prev toks st) := by
  induction toks with
  | nil => intro prev st h; exact h
  | cons t rest ih =>
    intro prev st h
    exact ih (some t) _ (analyze_token_inv model lang isLatin isCyr prev t st h)

/-- C9: `total_words` equals the total number of occurrences recorded in
`wsid` — every saved occurrence contributes exactly one to the word count,
and the index's keys are pairwise distinct, so the sum ranges once over
every lemma. -/
theorem c9_total_words (model : Str → List SpacyToken) (lang : Str)
    (isLatin isCyr : Char → Bool) (lines : List Str) :
    (analyze_file_new model lang isLatin isCyr lines).total_words =
      (((analyze_file_new model lang isLatin isCyr lines).wsid).map
        (fun p => p.2.length)).sum ∧
    (((analyze_file_new model lang isLatin isCyr lines).wsid).map
      Prod.fst).Nodup := by
  have h := analyze_loop_inv model lang isLatin isCyr (analyze_doc model lines)
    none ⟨0, 0, 0, [], []⟩ ⟨rfl, by simp⟩
  obtain ⟨h1, h2⟩ := h
  exact ⟨by simpa [analyze_file_new, analyze_run, wsid_size] using h1,
    by simpa [analyze_file_new, analyze_run] using h2⟩

/-- When the enclosing token's surface form is not name-cased, the token step
records no likely-name candidate at all. -/
theorem analyze_word_part_cand_const (model : Str → List SpacyToken)
    (lang : Str) (isLatin isCyr : Char → Bool) (t : SpacyToken)
    (s : AnalyzeState) (h : is_namecase t.text = false) :
    (analyze_word_part model lang isLatin isCyr t s).cand = s.cand := by
  have hsave : ∀ (w : Str) (s' : AnalyzeState),
      (save_word_inc t.text w s').cand = s'.cand := by
    intro w s'
    simp [save_word_inc, save_word, h]
  have hfold : ∀ (toks : List SpacyToken) (s' : AnalyzeState),
      (toks.foldl (fun s t2 =>
        if has_alpha t2.lemma_ then save_word_inc t.text (py_lower t2.lemma_) s
        else s) s').cand = s'.cand := by
    intro toks
    induction toks with
    | nil => intro s'; rfl
    | cons t2 rest ih =>
      intro s'
      simp only [List.foldl_cons]
      by_cases ha : has_alpha t2.lemma_ = true
      · rw [if_pos ha, ih, hsave]
      · rw [if_neg ha]
        exact ih s'
  unfold analyze_word_part
  split
  · rfl
  · split
    · exact hsave _ _
    · split
      · exact hsave _ _
      · exact hfold _ _

/-- A token step either leaves the candidate map unchanged or the token's
surface form is name-cased. -/
theorem analyze_token_cand (model : Str → List SpacyToken) (lang : Str)
    (isLatin isCyr : Char → Bool) (prev : Option SpacyToken) (t : SpacyToken)
    (st : AnalyzeState) :
    (analyze_token model lang isLatin isCyr prev t st).cand = st.cand ∨
      is_namecase t.text = true := by
  by_cases h : is_namecase t.text = true
  · exact Or.inr h
  · left
    have h' : is_namecase t.text = false := by simpa using h
    unfold analyze_token
    split
    · rfl
    · exact analyze_word_part_cand_const model lang isLatin isCyr t _ h'

/-- Any key of the candidate map at the end of the loop was either present
initially or witnessed by a name-cased token of the document. -/
theorem analyze_loop_cand (model : Str → List SpacyToken) (lang : Str)
    (isLatin isCyr : Char → Bool) (toks : List SpacyToken) :
    ∀ (prev : Option SpacyToken) (st : AnalyzeState) (w : Str),
    (List.lookup w (analyze_loop model lang isLatin isCyr prev toks st).cand).isSome = true →
    (List.lookup w st.cand).isSome = true ∨
      ∃ t ∈ toks, is_namecase t.text = true := by
  induction toks with
  | nil => intro prev st w h; exact Or.inl h
  | cons t rest ih =>
    intro prev st w h
    rcases ih (some t) _ w h with hmem | ⟨t', ht', hn⟩
    · rcases analyze_token_cand model lang isLatin isCyr prev t st with heq | hn
      · rw [heq] at hmem
        exact Or.inl hmem
      · exact Or.inr ⟨t, List.mem_cons_self _ _, hn⟩
    · exact Or.inr ⟨t', List.mem_cons_of_mem _ ht', hn⟩

/-- C10: `is_namecase` rejects every one-character string (the empty
remainder is not `islower`), and every likely-name candidate recorded by
`analyze_file_new`'s loop stems from a token whose surface form satisfies
`is_namecase` — so a capitalized single-letter token such as `"I"` is never
recorded as a likely-name candidate. -/
theorem c10_single_letter_never_name :
    (∀ s : Str, s.length = 1 → is_namecase s = false) ∧
    (∀ (model : Str → List SpacyToken) (lang : Str)
      (isLatin isCyr : Char → Bool) (lines : List Str) (w : Str),
      (List.lookup w (analyze_candidates model lang isLatin isCyr lines)).isSome = true →
      ∃ t ∈ analyze_doc model lines, is_namecase t.text = true) := by
  constructor
  · intro s hs
    cases s with
    | nil => simp at hs
    | cons c rest =>
      have hrest : rest = [] := by
        simpa using List.length_eq_zero.mp (by simpa using hs)
      subst hrest
      simp [is_namecase, py_islower]
  · intro model lang isLatin isCyr lines w h
    rcases analyze_loop_cand model lang isLatin isCyr (analyze_doc model lines)
      none ⟨0, 0, 0, [], []⟩ w h with h0 | hex
    · simp [List.lookup] at h0
    · exact hex

/-- The one-token tokenizer used by the `c10_single_letter_never_name`
witness. -/
def c10w_model : Str → List SpacyToken :=
  fun _ => [⟨"Ab".data, "ab".data, false, false⟩]

/-- Witness for `c10_single_letter_never_name` at a concrete tokenizer. -/
theorem c10_single_letter_never_name_witness :
    (List.lookup "ab".data (analyze_candidates c10w_model "en".data
      (fun c => c.isAlpha) (fun _ => false) [])).isSome = true ∧
    (∃ t ∈ analyze_doc c10w_model [], is_namecase t.text = true) :=
  ⟨by decide,
    c10_single_letter_never_name.2 c10w_model "en".data (fun c => c.isAlpha)
      (fun _ => false) [] "ab".data (by decide)⟩
